import Mathlib

/-!
# Approximate Mean Value Analysis solver (`makva.c`): embedding and properties

The fork-join bounding tool `badue2.c` follows in the namespace `Badue`.

The C program works on `double` matrices.  The embedding uses exact rational
arithmetic.  A cell holds a value of type `Val = Option ℚ`:

* `some q` is the finite number `q`;
* `none` is a value that exact arithmetic does not determine: the result of a
  division by zero (IEEE gives `NaN` or an infinity there) or of any operation
  on such a value.

The four arithmetic operations are strict in `none`, and `x / 0 = none`.
Matrices (`double **`) are functions from a row and a column index to a cell;
the loops of `main` are folds over `List.range`, in the order of the source.
-/

namespace Makva

/-! ## Values and matrices -/

/-- A `double` in exact arithmetic; `none` is a value that is not a finite number. -/
abbrev Val := Option ℚ

/-- Addition of two cells (`a + b`). -/
def vadd : Val → Val → Val
  | some x, some y => some (x + y)
  | _, _ => none

/-- Subtraction of two cells (`a - b`). -/
def vsub : Val → Val → Val
  | some x, some y => some (x - y)
  | _, _ => none

/-- Multiplication of two cells (`a * b`). -/
def vmul : Val → Val → Val
  | some x, some y => some (x * y)
  | _, _ => none

/-- Division of two cells (`a / b`); a zero divisor gives no finite number. -/
def vdiv : Val → Val → Val
  | some x, some y => if y = 0 then none else some (x / y)
  | _, _ => none

instance : Add Val := ⟨vadd⟩
instance : Sub Val := ⟨vsub⟩
instance : Mul Val := ⟨vmul⟩
instance : Div Val := ⟨vdiv⟩

/-- A matrix `double **`, indexed by row and column. -/
abbrev Mat := Nat → Nat → Val

/-- The assignment `M[i][k] = v`. -/
def setCell (M : Mat) (i k : Nat) (v : Val) : Mat :=
  fun a b => if a = i ∧ b = k then v else M a b

/-- The matrix returned by `allocate` (and `init`): every cell is `0`. -/
def allocate : Mat := fun _ _ => some 0

/-! ## The local variables of `main` -/

/-- The variables of `main` that the iteration loop reads or writes. -/
structure Vars where
  /-- number of tasks -/
  N : Int
  /-- number of centers -/
  C : Int
  /-- error tolerance -/
  eps : ℚ
  /-- task overlap -/
  theta : Mat
  /-- task response times -/
  R : Mat
  /-- service demands -/
  D : Mat
  /-- queue length -/
  Q : Mat
  /-- arrival queue length -/
  A : Mat
  /-- total response time of the current iteration -/
  R_l : Val
  /-- total response time of the previous iteration -/
  R_s : Val

/-! ## The steps of one iteration (`makva.c`, lines 139-186) -/

/-- The sum `s = 0; for (k = 0; k < C; k++) s += R[i][k];`. -/
def rowSum (C : Nat) (R : Mat) (i : Nat) : Val :=
  (List.range C).foldl (fun s k => s + R i k) (some 0)

/-- The body of the `i` loop of step 1 for one pair `(j, i)`: the normaliser
`s` of row `i`, then the in-place update of every cell of row `j`. -/
def reducePair (N : Int) (C : Nat) (theta D : Mat) (R : Mat) (j i : Nat) : Mat :=
  let s := rowSum C R i
  (List.range C).foldl
    (fun M k => setCell M j k (M j k - theta j i / some (N : ℚ) * D j k * M i k / s)) R

/-- The `i` loop of step 1 for one target task `j`. -/
def reduceRow (N : Int) (C : Nat) (theta D : Mat) (R : Mat) (j : Nat) : Mat :=
  (List.range N.toNat).foldl (fun M i => reducePair N C theta D M j i) R

/-- Step 1, "Calculate reduced population residence times": `j` outer, `i` inner. -/
def step1 (N : Int) (C : Nat) (theta D : Mat) (R : Mat) : Mat :=
  (List.range N.toNat).foldl (fun M j => reduceRow N C theta D M j) R

/-- The matrix `R` inside step 1 when the pair `(j, i)` begins: the rows before
`j` are done, and so are the pairs `(j, i')` with `i' < i`. -/
def beforePair (N : Int) (C : Nat) (theta D : Mat) (R : Mat) (j i : Nat) : Mat :=
  (List.range i).foldl (fun M i' => reducePair N C theta D M j i')
    ((List.range j).foldl (fun M j' => reduceRow N C theta D M j') R)

/-- The body of the `j` loop of step 2: the normaliser of row `j`, then the
cells `Q[j][k] = R[j][k] / s`. -/
def queueRow (C : Nat) (R : Mat) (Q : Mat) (j : Nat) : Mat :=
  let s := rowSum C R j
  (List.range C).foldl (fun M k => setCell M j k (R j k / s)) Q

/-- Step 2, "Calculate queue length". -/
def step2 (N C : Nat) (R : Mat) (Q : Mat) : Mat :=
  (List.range N).foldl (fun M j => queueRow C R M j) Q

/-- The sum `s = 0; for (j = 0; j < N; j++) s += theta[i][j] * Q[j][k];`. -/
def arrivalSum (N : Nat) (theta Q : Mat) (i k : Nat) : Val :=
  (List.range N).foldl (fun s j => s + theta i j * Q j k) (some 0)

/-- Step 3, "Calculate queue length at time of arrival". -/
def step3 (N C : Nat) (theta Q : Mat) (A : Mat) : Mat :=
  (List.range N).foldl
    (fun M i => (List.range C).foldl (fun M' k => setCell M' i k (arrivalSum N theta Q i k)) M) A

/-- Step 4, "Calculate response time in each center". -/
def step4 (N C : Nat) (D A : Mat) (R : Mat) : Mat :=
  (List.range N).foldl
    (fun M i => (List.range C).foldl
      (fun M' k => setCell M' i k (D i k * (some 1 + A i k))) M) R

/-- The accumulation `for i, k: R_l += R[i][k]` onto the current `R_l`. -/
def total (N C : Nat) (R : Mat) (R_l : Val) : Val :=
  (List.range N).foldl (fun t i => (List.range C).foldl (fun t' k => t' + R i k) t) R_l

/-- The body of the `while` loop up to the convergence test: steps 1 to 4 and
the accumulation of the total. -/
def body (v : Vars) : Vars :=
  let R1 := step1 v.N v.C.toNat v.theta v.D v.R
  let Q1 := step2 v.N.toNat v.C.toNat R1 v.Q
  let A1 := step3 v.N.toNat v.C.toNat v.theta Q1 v.A
  let R2 := step4 v.N.toNat v.C.toNat v.D A1 R1
  { v with R := R2, Q := Q1, A := A1, R_l := total v.N.toNat v.C.toNat R2 v.R_l }

/-! ## The convergence test (`makva.c`, lines 188-194) -/

/-- The conversion of a `double` to `int`: truncation toward zero. -/
def truncInt (x : ℚ) : Int := Int.tdiv x.num x.den

/-- The test `abs(R_s - R_l) < eps`.  `abs` is the integer function of
`stdlib.h`, so the difference is first converted to `int`.  The result is
`none` when the difference is not a finite number or when its conversion or
its absolute value does not fit in a 32-bit `int` (undefined in C). -/
def convTest (R_s R_l : Val) (eps : ℚ) : Option Bool :=
  match R_s - R_l with
  | none => none
  | some d =>
    let t := truncInt d
    if -(2 : Int) ^ 31 < t ∧ t < (2 : Int) ^ 31 then some (decide (((|t| : Int) : ℚ) < eps))
    else none

/-! ## The loop and the program -/

/-- What a run of the program does. -/
inductive Outcome where
  /-- an unrecognised option: `usage()` is printed and `main` returns -/
  | usage
  /-- a loading loop called `fscanf` on a stream that is not open (`fopen`
  returned `NULL`, or the option was not given): the program is killed -/
  | crash
  /-- the loop stopped and `R_l` was printed -/
  | printed (R_l : Val)
  /-- a convergence test was reached whose result C leaves undefined -/
  | undefinedTest
  /-- the loop is still running after the given number of iterations -/
  | running
  deriving DecidableEq

/-- The `else` branch of the convergence test: `R_s = R_l; R_l = 0.0;`. -/
def restart (w : Vars) : Vars := { w with R_s := w.R_l, R_l := some 0 }

/-- The loop `while (converged == 0)`, run for at most `fuel` iterations. -/
def loop : Nat → Vars → Outcome
  | 0, _ => Outcome.running
  | fuel + 1, v =>
    let w := body v
    match convTest w.R_s w.R_l w.eps with
    | none => Outcome.undefinedTest
    | some true => Outcome.printed w.R_l
    | some false => loop fuel (restart w)

/-- The variables at the start of iteration `n` (counted from `0`) of a run
in which no earlier convergence test passed. -/
def stateAt : Nat → Vars → Vars
  | 0, v => v
  | n + 1, v => restart (body (stateAt n v))

/-! ## The convergence test with a 32-bit `int`

C leaves the conversion `(int) x` undefined when `x` is a NaN, an infinity or
out of the range of `int`, and `abs(INT_MIN)` as well; `convTest` is `none`
there.  On x86-64 the conversion instruction gives `INT_MIN` in these cases
and `abs` wraps in two's complement.  `convTest32` is the test with these
values; it agrees with `convTest` wherever `convTest` is defined. -/

/-- The conversion `(int) x` on x86-64: truncation toward zero, and `INT_MIN`
for a value that is no finite number or whose truncation is out of range. -/
def toInt32 : Val → Int
  | none => -(2 : Int) ^ 31
  | some d =>
    if -(2 : Int) ^ 31 ≤ truncInt d ∧ truncInt d < (2 : Int) ^ 31 then truncInt d
    else -(2 : Int) ^ 31

/-- The function `abs` on a 32-bit `int` in two's complement: the absolute
value modulo `2^32`, so that `abs(INT_MIN)` is `INT_MIN`. -/
def abs32 (t : Int) : Int := (|t| + (2 : Int) ^ 31) % (2 : Int) ^ 32 - (2 : Int) ^ 31

/-- The test `abs(R_s - R_l) < eps` with a 32-bit `int`. -/
def convTest32 (R_s R_l : Val) (eps : ℚ) : Bool :=
  decide (((abs32 (toInt32 (R_s - R_l)) : Int) : ℚ) < eps)

/-- The loop `while (converged == 0)` with the 32-bit test, run for at most
`fuel` iterations. -/
def loop32 : Nat → Vars → Outcome
  | 0, _ => Outcome.running
  | fuel + 1, v =>
    let w := body v
    if convTest32 w.R_s w.R_l w.eps then Outcome.printed w.R_l
    else loop32 fuel (restart w)

/-! ## Option parsing and loading (`makva.c`, lines 85-134) -/

/-- One option as `getopt` returns it, its argument already converted by
`atoi`, `atof` or `fopen`.  An open file is the list of the numeric tokens that
`fscanf` can read from it; `none` is the `NULL` that `fopen` returns for a file
it cannot open. -/
inductive Opt where
  /-- the option `-N` -/
  | N (n : Int)
  /-- the option `-C` -/
  | C (n : Int)
  /-- the option `-e` -/
  | e (x : ℚ)
  /-- the option `-r` -/
  | r (file : Option (List ℚ))
  /-- the option `-s` -/
  | s (file : Option (List ℚ))
  /-- the option `-o` -/
  | o (file : Option (List ℚ))
  /-- any other option (`default:` and `case '?':`) -/
  | unknown

/-- The variables of `main` that the option loop sets.  A `FILE *` is `none`
when it is not an open stream: `NULL`, or the value that the variable has
when its option is not given. -/
structure Locals where
  /-- number of tasks -/
  N : Int
  /-- number of centers -/
  C : Int
  /-- error tolerance -/
  eps : ℚ
  /-- the stream of response times -/
  response : Option (List ℚ)
  /-- the stream of service demands -/
  demand : Option (List ℚ)
  /-- the stream of overlap coefficients -/
  overlap : Option (List ℚ)

/-- The `while ((opt = getopt(...)) != -1)` loop: `none` when an unrecognised
option makes `main` print the usage text and return. -/
def getopts : List Opt → Locals → Option Locals
  | [], a => some a
  | Opt.N n :: rest, a => getopts rest { a with N := n }
  | Opt.C n :: rest, a => getopts rest { a with C := n }
  | Opt.e x :: rest, a => getopts rest { a with eps := x }
  | Opt.r f :: rest, a => getopts rest { a with response := f }
  | Opt.s f :: rest, a => getopts rest { a with demand := f }
  | Opt.o f :: rest, a => getopts rest { a with overlap := f }
  | Opt.unknown :: _, _ => none

/-- The stream that a loading loop works on: `none` when the loop calls
`fscanf` at least once (`reads`) on a stream that is not open.  A stream that
is not open and not read stands for no token. -/
def stream : Bool → Option (List ℚ) → Option (List ℚ)
  | _, some f => some f
  | true, none => none
  | false, none => some []

/-- The values with which the tables are loaded. -/
structure Args where
  /-- number of tasks -/
  N : Int
  /-- number of centers -/
  C : Int
  /-- error tolerance -/
  eps : ℚ
  /-- the stream of response times -/
  response : List ℚ
  /-- the stream of service demands -/
  demand : List ℚ
  /-- the stream of overlap coefficients -/
  overlap : List ℚ

/-- The streams of the three loading loops: `none` when one of the loops
calls `fscanf` on a stream that is not open.  The loops of the response times
and of the service demands read when `N > 0` and `C > 0`, the loop of the
overlaps when `N > 0`. -/
def openFiles (l : Locals) : Option Args :=
  match stream (decide (0 < l.N.toNat) && decide (0 < l.C.toNat)) l.response,
        stream (decide (0 < l.N.toNat) && decide (0 < l.C.toNat)) l.demand,
        stream (decide (0 < l.N.toNat)) l.overlap with
  | some r, some d, some o => some ⟨l.N, l.C, l.eps, r, d, o⟩
  | _, _, _ => none

/-- The call `fscanf(f, "%lf", &M[i][k])`: the next token goes into the cell;
when the stream has no token left the cell keeps its value. -/
def fscanf (f : List ℚ) (M : Mat) (i k : Nat) : Mat × List ℚ :=
  match f with
  | [] => (M, [])
  | t :: rest => (setCell M i k (some t), rest)

/-- The loading loop of a table with `rows` rows and `cols` columns, row-major. -/
def loadTable (rows cols : Nat) (f : List ℚ) (M : Mat) : Mat × List ℚ :=
  (List.range rows).foldl
    (fun st i => (List.range cols).foldl (fun st' k => fscanf st'.2 st'.1 i k) st) (M, f)

/-- The loading loop of the response times, which also accumulates
`R_s += R[i][k]` after each read. -/
def loadResponse (N C : Nat) (f : List ℚ) (R : Mat) (R_s : Val) : (Mat × List ℚ) × Val :=
  (List.range N).foldl
    (fun st i => (List.range C).foldl
      (fun st' k =>
        let p := fscanf st'.1.2 st'.1.1 i k
        (p, st'.2 + p.1 i k)) st) ((R, f), R_s)

/-- Lines 104-136 of `main`: allocation of the five matrices and loading of
the three tables. -/
def load (a : Args) : Vars :=
  let rs := loadResponse a.N.toNat a.C.toNat a.response allocate (some 0)
  { N := a.N
    C := a.C
    eps := a.eps
    theta := (loadTable a.N.toNat a.N.toNat a.overlap allocate).1
    R := rs.1.1
    D := (loadTable a.N.toNat a.C.toNat a.demand allocate).1
    Q := allocate
    A := allocate
    R_l := some 0
    R_s := rs.2 }

/-- The program `main`, its loop run for at most `fuel` iterations; `init`
holds the values of the variables before the option loop. -/
def main (fuel : Nat) (init : Locals) (argv : List Opt) : Outcome :=
  match getopts argv init with
  | none => Outcome.usage
  | some l =>
    match openFiles l with
    | none => Outcome.crash
    | some a => loop fuel (load a)

/-- The command line of the degenerate run: one task, one center,
`theta = [[1]]`, `D = [[1]]`, initial `R = [[2]]`, `eps = 1e-6`. -/
def degenerateArgv : List Opt :=
  [Opt.N 1, Opt.C 1, Opt.e (1 / 1000000), Opt.r (some [2]), Opt.s (some [1]), Opt.o (some [1])]

/-- The variables of the degenerate run when the loop is entered. -/
def degenerate : Vars := load ⟨1, 1, 1 / 1000000, [2], [1], [1]⟩

/-- A command line with tolerance `0.5`: one task, one center,
`theta = [[1]]`, `D = [[1]]`, initial `R = [[2.9]]`. -/
def coarseArgv : List Opt :=
  [Opt.N 1, Opt.C 1, Opt.e (1 / 2), Opt.r (some [29 / 10]), Opt.s (some [1]), Opt.o (some [1])]

/-- The variables of the run of `coarseArgv` when the loop is entered. -/
def coarse : Vars := load ⟨1, 1, 1 / 2, [29 / 10], [1], [1]⟩

/-- A cell that holds a non-negative number. -/
def isNonneg : Val → Bool
  | some q => decide (0 ≤ q)
  | none => false

/-- A run with non-negative tables on which step 1 leaves a negative cell: one
task, two centers, `theta = [[1]]`, `D = [[2, 7]]`, initial `R = [[2, 2]]`. -/
def skewed : Vars := load ⟨1, 2, 1, [2, 2], [2, 7], [1]⟩

/-- The command line of an oscillating run: one task, two centers,
`theta = [[4.5]]`, `D = [[2, 4]]`, initial `R = [[11, 4]]`, `eps = 1`. -/
def oscillatingArgv : List Opt :=
  [Opt.N 1, Opt.C 2, Opt.e 1, Opt.r (some [11, 4]), Opt.s (some [2, 4]), Opt.o (some [9 / 2])]

/-- The variables of the oscillating run when the loop is entered. -/
def oscillating : Vars := load ⟨1, 2, 1, [11, 4], [2, 4], [9 / 2]⟩

/-- The tables of the oscillating run at the start of an iteration whose
matrix `R` is `[[r0, r1]]` and whose previous total is `r0 + r1`. -/
def oscillatingAt (r0 r1 : ℚ) (w : Vars) : Prop :=
  w.N = 1 ∧ w.C = 2 ∧ w.eps = 1 ∧ w.theta 0 0 = some (9 / 2) ∧
  w.D 0 0 = some 2 ∧ w.D 0 1 = some 4 ∧
  w.R 0 0 = some r0 ∧ w.R 0 1 = some r1 ∧ w.R_s = some (r0 + r1) ∧ w.R_l = some 0

instance (r0 r1 : ℚ) (w : Vars) : Decidable (oscillatingAt r0 r1 w) := by
  unfold oscillatingAt
  infer_instance

/-- Values of the variables of `main` before the option loop: no stream is
open. -/
def zeroArgs : Locals := ⟨0, 0, 0, none, none, none⟩

/-- A command line with `N = 2`, `C = 2`, `eps = 2` whose file of response
times holds three tokens only; `D` is all ones and `theta` all zeros. -/
def shortArgv : List Opt :=
  [Opt.N 2, Opt.C 2, Opt.e 2, Opt.r (some [1, 1, 1]), Opt.s (some [1, 1, 1, 1]), Opt.o (some [0, 0, 0, 0])]

/-- The variables of the run of `shortArgv` when the loop is entered. -/
def short : Vars := load ⟨2, 2, 2, [1, 1, 1], [1, 1, 1, 1], [0, 0, 0, 0]⟩

/-- A command line whose only response time is zero: one task, one center,
`theta = [[1]]`, `D = [[1]]`, initial `R = [[0]]`, `eps = 1`. -/
def zeroRowArgv : List Opt :=
  [Opt.N 1, Opt.C 1, Opt.e 1, Opt.r (some [0]), Opt.s (some [1]), Opt.o (some [1])]

/-- The variables of the run of `zeroRowArgv` when the loop is entered. -/
def zeroRow : Vars := load ⟨1, 1, 1, [0], [1], [1]⟩

/-! ## Step 1 as a sequence of simultaneous row updates -/

/-- The pairs `(a, b)` with `a < rows` and `b < cols` in the order of a double
loop: `a` outer, `b` inner. -/
def pairs (rows cols : Nat) : List (Nat × Nat) :=
  (List.range rows).flatMap (fun a => (List.range cols).map (fun b => (a, b)))

/-- Following the spec: the update of row `j` for the pair `(j, i)` as one
simultaneous assignment, every value on the right-hand side being that of
the matrix `R` as it stood when the pair began. -/
def simultaneousPair (N : Int) (C : Nat) (theta D : Mat) (R : Mat) (j i : Nat) : Mat :=
  fun a b =>
    if a = j ∧ b < C then
      R j b - theta j i / some (N : ℚ) * D j b * R i b / rowSum C R i
    else R a b

/-- Following the spec: step 1 as the simultaneous updates of the pairs
`(j, i)`, visited with `j` outer and `i` inner. -/
def step1Simultaneous (N : Int) (C : Nat) (theta D : Mat) (R : Mat) : Mat :=
  (pairs N.toNat N.toNat).foldl (fun M p => simultaneousPair N C theta D M p.1 p.2) R

/-- The variant of step 1 that is not the program's: the same three loops, but
every reduction is computed from the snapshot `R0` of `R` taken when the pass
begins, normalisers included. -/
def step1Snapshot (N : Int) (C : Nat) (theta D : Mat) (R0 : Mat) : Mat :=
  (List.range N.toNat).foldl
    (fun M j => (List.range N.toNat).foldl
      (fun M' i => (List.range C).foldl
        (fun M'' k => setCell M'' j k
          (M'' j k - theta j i / some (N : ℚ) * D j k * R0 i k / rowSum C R0 i)) M') M) R0

/-- A run on which the order of step 1 matters: two tasks, two centers,
`theta = [[1, 0], [1, 0]]`, `D = [[4, 0], [2, 2]]`, initial `R = [[1, 1], [1, 1]]`. -/
def ordered : Vars := load ⟨2, 2, 1, [1, 1, 1, 1], [4, 0, 2, 2], [1, 0, 1, 0]⟩

/-! ## One center -/

/-- Following the spec: the value `Σ_i D[i][0] * (1 + Σ_j theta[i][j])`, as the
loops that add the summands up from zero. -/
def closedForm (N : Nat) (theta D : Mat) : Val :=
  (List.range N).foldl (fun t i => t + D i 0 * (some 1 + rowSum N theta i)) (some 0)

/-- A command line with a large initial response time: one task, one center,
`theta = [[1]]`, `D = [[1]]`, initial `R = [[3000000002]]`, `eps = 1`. -/
def farArgv : List Opt :=
  [Opt.N 1, Opt.C 1, Opt.e 1, Opt.r (some [3000000002]), Opt.s (some [1]), Opt.o (some [1])]

/-- The variables of the run of `farArgv` when the loop is entered. -/
def far : Vars := load ⟨1, 1, 1, [3000000002], [1], [1]⟩

/-- No zero normaliser is met in the iteration that starts from `w`: neither by
a pair `(j, i)` of step 1 nor by a task `j` of step 2. -/
def noZeroNormaliser (w : Vars) : Prop :=
  (∀ j i, j < w.N.toNat → i < w.N.toNat →
    rowSum w.C.toNat (beforePair w.N w.C.toNat w.theta w.D w.R j i) i ≠ some 0) ∧
  (∀ j, j < w.N.toNat →
    rowSum w.C.toNat (step1 w.N w.C.toNat w.theta w.D w.R) j ≠ some 0)

end Makva

/-!
# Bounding model for fork-join networks (`badue2.c`)

The `float` variables of the program are cells of type `Makva.Val`, in exact
arithmetic.
-/

namespace Badue

open Makva

/-- One option as `getopt` returns it, its argument already converted by
`atoi` or `atof`.  The options `-s` and `-r` take a second argument from the
command line, which is `none` when no argument follows or when the next one
starts with `-`. -/
inductive Opt where
  /-- the option `-p` -/
  | p (n : Int)
  /-- the option `-s` -/
  | s (S_m : ℚ) (second : Option ℚ)
  /-- the option `-l` -/
  | l (x : ℚ)
  /-- the option `-r` -/
  | r (R_m : ℚ) (second : Option ℚ)
  /-- any other option (`default:` and `case '?':`) -/
  | unknown

/-- The variables of `main` that the option loop sets. -/
structure Locals where
  /-- number of slave servers -/
  p : Int
  /-- task arrival rate -/
  lambda : ℚ
  /-- service time at the master server -/
  S_m : ℚ
  /-- service time at the slave servers -/
  S_s : ℚ
  /-- response time of the master server -/
  R_m : ℚ
  /-- response time of the slave servers -/
  R_s : ℚ

/-- The `while ((opt = getopt(...)) != -1)` loop: `none` when `main` prints
the usage text and returns, for an unrecognised option or for a `-s` or `-r`
without its second argument. -/
def getopts : List Opt → Locals → Option Locals
  | [], a => some a
  | Opt.p n :: rest, a => getopts rest { a with p := n }
  | Opt.s m (some x) :: rest, a => getopts rest { a with S_m := m, S_s := x }
  | Opt.s _ none :: _, _ => none
  | Opt.l x :: rest, a => getopts rest { a with lambda := x }
  | Opt.r m (some x) :: rest, a => getopts rest { a with R_m := m, R_s := x }
  | Opt.r _ none :: _, _ => none
  | Opt.unknown :: _, _ => none

/-- Arithmetic on a 32-bit `int` in two's complement: the value modulo `2^32`
in the range from `-2^31` to `2^31 - 1`. -/
def wrap32 (z : Int) : Int := (z + (2 : Int) ^ 31) % (2 : Int) ^ 32 - (2 : Int) ^ 31

/-- The loop `for (...; i <= p; i++) H_p += 1.0 / i;` from the values `i` and
`h` of the counter and of `H_p`, run for at most `fuel` tests of `i <= p`;
`none` when the loop is still running.  The counter is a 32-bit `int`. -/
def harmonicLoop (p : Int) : Nat → Int → Val → Option Val
  | 0, _, _ => none
  | fuel + 1, i, h =>
    if i ≤ p then harmonicLoop p fuel (wrap32 (i + 1)) (h + some 1 / some (i : ℚ))
    else some h

/-- The loop `H_p = 0.0; for (i = 1; i <= p; i++) H_p += 1.0 / i;`. -/
def H_p (fuel : Nat) (p : Int) : Option Val := harmonicLoop p fuel 1 (some 0)

/-- What a run of the program does. -/
inductive Outcome where
  /-- the usage text is printed and `main` returns -/
  | usage
  /-- the line `minR <= R <= maxR` is printed -/
  | printed (minR maxR : Val)
  /-- the loop for `H_p` is still running after the given number of tests -/
  | running
  deriving DecidableEq

/-- The response times used for the bounds: computed from the service times
when `R_s < 0`, those given otherwise. -/
def responseTimes (a : Locals) : Val × Val :=
  if a.R_s < 0 then
    (some a.S_m / (some 1 - some a.lambda * some a.S_m),
     some a.S_s / (some 1 - some a.lambda * some a.S_s))
  else (some a.R_m, some a.R_s)

/-- The program `main`, its loop run for at most `fuel` tests; `init` holds
the values of the variables before the assignments `R_s = -1; S_s = -1;` and
the option loop. -/
def main (fuel : Nat) (init : Locals) (argv : List Opt) : Outcome :=
  match getopts argv { init with R_s := -1, S_s := -1 } with
  | none => Outcome.usage
  | some a =>
    let R_m := (responseTimes a).1
    let R_s := (responseTimes a).2
    match H_p fuel a.p with
    | none => Outcome.running
    | some h => Outcome.printed (R_s + R_m) (h * R_s + R_m)

end Badue

namespace Makva

/-! ## Arithmetic on cells -/

@[simp] theorem some_add_some (x y : ℚ) : (some x : Val) + some y = some (x + y) := rfl
@[simp] theorem some_sub_some (x y : ℚ) : (some x : Val) - some y = some (x - y) := rfl
@[simp] theorem some_mul_some (x y : ℚ) : (some x : Val) * some y = some (x * y) := rfl
@[simp] theorem none_add (v : Val) : (none : Val) + v = none := rfl
@[simp] theorem add_none (v : Val) : v + (none : Val) = none := by cases v <;> rfl
@[simp] theorem none_sub (v : Val) : (none : Val) - v = none := rfl
@[simp] theorem sub_none (v : Val) : v - (none : Val) = none := by cases v <;> rfl
@[simp] theorem none_mul (v : Val) : (none : Val) * v = none := rfl
@[simp] theorem mul_none (v : Val) : v * (none : Val) = none := by cases v <;> rfl
@[simp] theorem none_div (v : Val) : (none : Val) / v = none := rfl
@[simp] theorem div_none (v : Val) : v / (none : Val) = none := by cases v <;> rfl
@[simp] theorem div_some_zero (v : Val) : v / (some 0 : Val) = none := by
  cases v
  · rfl
  · show vdiv _ _ = none
    simp [vdiv]

theorem some_div_some (x y : ℚ) (hy : y ≠ 0) : (some x : Val) / some y = some (x / y) := by
  show vdiv _ _ = _
  simp [vdiv, hy]

/-! ## Cells of a matrix after the loops -/

@[simp] theorem range_one_eq : List.range 1 = [0] := rfl
@[simp] theorem range_two_eq : List.range 2 = [0, 1] := rfl


@[simp] theorem setCell_apply (M : Mat) (i k : Nat) (v : Val) (a b : Nat) :
    setCell M i k v a b = if a = i ∧ b = k then v else M a b := rfl

/-- A loop over `k < C` that assigns `g k` to cell `(i, k)`. -/
theorem fillRow_apply (C : Nat) (g : Nat → Val) (M : Mat) (i a b : Nat) :
    (List.range C).foldl (fun M' k => setCell M' i k (g k)) M a b
      = if a = i ∧ b < C then g b else M a b := by
  induction C with
  | zero => simp
  | succ n ih =>
    rw [List.range_succ, List.foldl_append]
    simp only [List.foldl_cons, List.foldl_nil, setCell_apply, ih]
    by_cases ha : a = i
    · by_cases hb : b = n
      · simp [ha, hb]
      · by_cases hlt : b < n
        · have : b < n + 1 := by omega
          simp [ha, hb, hlt, this]
        · have : ¬ b < n + 1 := by omega
          simp [ha, hb, hlt, this]
    · simp [ha]

/-- A double loop over `i < N`, `k < C` that assigns `g i k` to cell `(i, k)`. -/
theorem fillMat_apply (N C : Nat) (g : Nat → Nat → Val) (M : Mat) (a b : Nat) :
    (List.range N).foldl
        (fun M' i => (List.range C).foldl (fun M'' k => setCell M'' i k (g i k)) M') M a b
      = if a < N ∧ b < C then g a b else M a b := by
  induction N with
  | zero => simp
  | succ n ih =>
    rw [List.range_succ, List.foldl_append]
    simp only [List.foldl_cons, List.foldl_nil]
    rw [fillRow_apply, ih]
    by_cases ha : a = n
    · subst ha
      by_cases hb : b < C
      · simp [hb]
      · simp [hb]
    · by_cases hlt : a < n
      · have : a < n + 1 := by omega
        simp [ha, hlt, this]
      · have : ¬ a < n + 1 := by omega
        simp [ha, hlt, this]

theorem step2_apply (N C : Nat) (R Q : Mat) (a b : Nat) :
    step2 N C R Q a b = if a < N ∧ b < C then R a b / rowSum C R a else Q a b :=
  fillMat_apply N C (fun j k => R j k / rowSum C R j) Q a b

theorem step3_apply (N C : Nat) (theta Q A : Mat) (a b : Nat) :
    step3 N C theta Q A a b = if a < N ∧ b < C then arrivalSum N theta Q a b else A a b :=
  fillMat_apply N C (fun i k => arrivalSum N theta Q i k) A a b

theorem step4_apply (N C : Nat) (D A R : Mat) (a b : Nat) :
    step4 N C D A R a b = if a < N ∧ b < C then D a b * (some 1 + A a b) else R a b :=
  fillMat_apply N C (fun i k => D i k * (some 1 + A i k)) R a b

/-! ## Sums -/

/-- A sum loop whose summands are all finite is the finite sum. -/
theorem foldl_add_some (n : Nat) (f : Nat → Val) (r : Nat → ℚ) (z : ℚ)
    (h : ∀ k, k < n → f k = some (r k)) :
    (List.range n).foldl (fun s k => s + f k) (some z)
      = some (z + Finset.sum (Finset.range n) r) := by
  induction n with
  | zero => simp
  | succ m ih =>
    rw [List.range_succ, List.foldl_append, ih (fun k hk => h k (by omega))]
    simp [h m (by omega), Finset.sum_range_succ, add_assoc]

/-- A sum loop that meets a summand that is not finite is not finite. -/
theorem foldl_add_none (n : Nat) (f : Nat → Val) (z : Val) (k : Nat) (hk : k < n)
    (h : f k = none) : (List.range n).foldl (fun s k => s + f k) z = none := by
  induction n with
  | zero => omega
  | succ m ih =>
    rw [List.range_succ, List.foldl_append]
    simp only [List.foldl_cons, List.foldl_nil]
    by_cases hkm : k = m
    · subst hkm
      rw [h]
      simp
    · rw [ih (by omega)]
      simp

/-- A sum loop with a finite result has only finite summands. -/
theorem foldl_add_eq_some (n : Nat) (f : Nat → Val) (z : Val) (s : ℚ)
    (h : (List.range n).foldl (fun s k => s + f k) z = some s) :
    ∀ k, k < n → f k = some ((f k).getD 0) := by
  intro k hk
  cases hf : f k with
  | none => rw [foldl_add_none n f z k hk hf] at h; cases h
  | some q => rfl

/-- The arrival sum over finite overlaps and queue lengths is the finite sum. -/
theorem arrivalSum_some (N : Nat) (theta Q : Mat) (i k : Nat) (t q : Nat → ℚ)
    (ht : ∀ j, j < N → theta i j = some (t j)) (hq : ∀ j, j < N → Q j k = some (q j)) :
    arrivalSum N theta Q i k = some (Finset.sum (Finset.range N) (fun j => t j * q j)) := by
  have h := foldl_add_some N (fun j => theta i j * Q j k) (fun j => t j * q j) 0
    (fun j hj => by simp [ht j hj, hq j hj])
  unfold arrivalSum
  rw [h, zero_add]

end Makva

namespace Makva

/-! ## The convergence test -/

theorem truncInt_of_nonneg (x : ℚ) (hx : 0 ≤ x) : truncInt x = ⌊x⌋ := by
  unfold truncInt
  rw [Rat.floor_def, Int.tdiv_eq_ediv (Rat.num_nonneg.mpr hx) (Int.natCast_nonneg _)]

theorem truncInt_neg (x : ℚ) : truncInt (-x) = -truncInt x := by
  unfold truncInt
  simp

theorem truncInt_zero : truncInt 0 = 0 := by
  simp [truncInt]

/-- The integer `abs` of the truncated difference is the floor of the real
absolute value. -/
theorem abs_truncInt (x : ℚ) : |truncInt x| = ⌊|x|⌋ := by
  rcases le_total 0 x with hx | hx
  · rw [abs_of_nonneg hx, truncInt_of_nonneg x hx, abs_of_nonneg (Int.floor_nonneg.mpr hx)]
  · have h : 0 ≤ -x := neg_nonneg.mpr hx
    have h2 : truncInt x = -⌊-x⌋ := by
      rw [← truncInt_of_nonneg (-x) h, truncInt_neg, neg_neg]
    rw [abs_of_nonpos hx, h2, abs_neg, abs_of_nonneg (Int.floor_nonneg.mpr h)]

/-- The test on two finite totals whose truncated difference `t` is known. -/
theorem convTest_some (a b eps : ℚ) (t : Int) (ht : truncInt (a - b) = t)
    (hlo : -(2 : Int) ^ 31 < t) (hhi : t < (2 : Int) ^ 31) :
    convTest (some a) (some b) eps = some (decide (((|t| : Int) : ℚ) < eps)) := by
  simp only [convTest, some_sub_some, ht]
  rw [if_pos ⟨hlo, hhi⟩]

/-! ## One task and one center -/

/-- One iteration on a system with one task and one center, away from zero
normalisers. -/
theorem body_one_one (v : Vars) (t d r : ℚ) (hN : v.N = 1) (hC : v.C = 1)
    (ht : v.theta 0 0 = some t) (hD : v.D 0 0 = some d) (hR : v.R 0 0 = some r)
    (hr : r ≠ 0) (hr1 : r - t * d ≠ 0) :
    step1 v.N v.C.toNat v.theta v.D v.R 0 0 = some (r - t * d) ∧
    (body v).Q 0 0 = some 1 ∧ (body v).A 0 0 = some t ∧
    (body v).R 0 0 = some (d * (1 + t)) ∧
    (body v).R_l = v.R_l + some (d * (1 + t)) := by
  have h1 : step1 1 1 v.theta v.D v.R 0 0 = some (r - t * d) := by
    simp [step1, reduceRow, reducePair, rowSum, ht, hD, hR, some_div_some, hr]
  have hQ : step2 1 1 (step1 1 1 v.theta v.D v.R) v.Q 0 0 = some 1 := by
    simp [step2_apply, rowSum, h1, some_div_some, hr1]
  have hA : step3 1 1 v.theta (step2 1 1 (step1 1 1 v.theta v.D v.R) v.Q) v.A 0 0
      = some t := by
    simp [step3_apply, arrivalSum, ht, hQ]
  have hR2 : step4 1 1 v.D (step3 1 1 v.theta (step2 1 1 (step1 1 1 v.theta v.D v.R) v.Q) v.A)
      (step1 1 1 v.theta v.D v.R) 0 0 = some (d * (1 + t)) := by
    simp [step4_apply, hD, hA]
  simp only [body, hN, hC, Int.toNat_one]
  refine ⟨h1, hQ, hA, hR2, ?_⟩
  simp [total, hR2]

end Makva

namespace Makva

/-! ## One task and two centers -/

/-- One iteration on a system with one task and two centers, away from zero
normalisers: `x0`, `x1` are the cells that step 1 leaves. -/
theorem body_one_two (v : Vars) (t d0 d1 r0 r1 x0 x1 : ℚ) (hN : v.N = 1) (hC : v.C = 2)
    (ht : v.theta 0 0 = some t) (hD0 : v.D 0 0 = some d0) (hD1 : v.D 0 1 = some d1)
    (hR0 : v.R 0 0 = some r0) (hR1 : v.R 0 1 = some r1)
    (hs : r0 + r1 ≠ 0)
    (hx0 : x0 = r0 - t * d0 * r0 / (r0 + r1)) (hx1 : x1 = r1 - t * d1 * r1 / (r0 + r1))
    (hs1 : x0 + x1 ≠ 0) :
    step1 v.N v.C.toNat v.theta v.D v.R 0 0 = some x0 ∧
    step1 v.N v.C.toNat v.theta v.D v.R 0 1 = some x1 ∧
    (body v).Q 0 0 = some (x0 / (x0 + x1)) ∧ (body v).Q 0 1 = some (x1 / (x0 + x1)) ∧
    (body v).A 0 0 = some (t * (x0 / (x0 + x1))) ∧
    (body v).A 0 1 = some (t * (x1 / (x0 + x1))) ∧
    (body v).R 0 0 = some (d0 * (1 + t * (x0 / (x0 + x1)))) ∧
    (body v).R 0 1 = some (d1 * (1 + t * (x1 / (x0 + x1)))) ∧
    (body v).R_l = v.R_l + some (d0 * (1 + t * (x0 / (x0 + x1))))
      + some (d1 * (1 + t * (x1 / (x0 + x1)))) := by
  have hC2 : (2 : Int).toNat = 2 := rfl
  have h10 : step1 1 2 v.theta v.D v.R 0 0 = some x0 := by
    simp [step1, reduceRow, reducePair, rowSum, ht, hD0, hD1, hR0, hR1, some_div_some, hs, hx0]
  have h11 : step1 1 2 v.theta v.D v.R 0 1 = some x1 := by
    simp [step1, reduceRow, reducePair, rowSum, ht, hD0, hD1, hR0, hR1, some_div_some, hs, hx1]
  have hQ0 : step2 1 2 (step1 1 2 v.theta v.D v.R) v.Q 0 0 = some (x0 / (x0 + x1)) := by
    simp [step2_apply, rowSum, h10, h11, some_div_some, hs1]
  have hQ1 : step2 1 2 (step1 1 2 v.theta v.D v.R) v.Q 0 1 = some (x1 / (x0 + x1)) := by
    simp [step2_apply, rowSum, h10, h11, some_div_some, hs1]
  have hA0 : step3 1 2 v.theta (step2 1 2 (step1 1 2 v.theta v.D v.R) v.Q) v.A 0 0
      = some (t * (x0 / (x0 + x1))) := by
    simp [step3_apply, arrivalSum, ht, hQ0]
  have hA1 : step3 1 2 v.theta (step2 1 2 (step1 1 2 v.theta v.D v.R) v.Q) v.A 0 1
      = some (t * (x1 / (x0 + x1))) := by
    simp [step3_apply, arrivalSum, ht, hQ1]
  have hR20 : step4 1 2 v.D (step3 1 2 v.theta (step2 1 2 (step1 1 2 v.theta v.D v.R) v.Q) v.A)
      (step1 1 2 v.theta v.D v.R) 0 0 = some (d0 * (1 + t * (x0 / (x0 + x1)))) := by
    simp [step4_apply, hD0, hA0]
  have hR21 : step4 1 2 v.D (step3 1 2 v.theta (step2 1 2 (step1 1 2 v.theta v.D v.R) v.Q) v.A)
      (step1 1 2 v.theta v.D v.R) 0 1 = some (d1 * (1 + t * (x1 / (x0 + x1)))) := by
    simp [step4_apply, hD1, hA1]
  simp only [body, hN, hC, Int.toNat_one, hC2]
  refine ⟨h10, h11, hQ0, hQ1, hA0, hA1, hR20, hR21, ?_⟩
  simp [total, hR20, hR21]

end Makva

namespace Makva

/-! ## Runs of the loop and of the program -/

/-- The loop never prints the usage text. -/
theorem loop_ne_usage (fuel : Nat) : ∀ v, loop fuel v ≠ Outcome.usage := by
  induction fuel with
  | zero => intro v h; cases h
  | succ m ih =>
    intro v
    simp only [loop]
    split
    · intro h; cases h
    · intro h; cases h
    · exact ih _

/-- With recognised options and open files the program loads the tables and
enters the loop. -/
theorem main_of_getopts (fuel : Nat) (init l : Locals) (a : Args) (argv : List Opt)
    (h : getopts argv init = some l) (ho : openFiles l = some a) :
    main fuel init argv = loop fuel (load a) := by
  simp [main, h, ho]

/-- The loop never ends in a crash. -/
theorem loop_ne_crash (fuel : Nat) : ∀ v, loop fuel v ≠ Outcome.crash := by
  induction fuel with
  | zero => intro v h; cases h
  | succ m ih =>
    intro v
    simp only [loop]
    split
    · intro h; cases h
    · intro h; cases h
    · exact ih _

/-- A stream that is open is the stream that is loaded. -/
theorem stream_some (reads : Bool) (f : List ℚ) : stream reads (some f) = some f := by
  cases reads <;> rfl

end Makva

namespace Makva

/-! ## Step 1 -/

/-- The in-place loop over `k` of one pair `(j, i)` of step 1 reads only cells
that it has not written yet: every cell of row `j` is computed from the matrix
as it stood when the pair began. -/
theorem reducePair_apply (N : Int) (C : Nat) (theta D R : Mat) (j i a b : Nat) :
    reducePair N C theta D R j i a b
      = if a = j ∧ b < C then
          R j b - theta j i / some (N : ℚ) * D j b * R i b / rowSum C R i
        else R a b := by
  unfold reducePair
  generalize rowSum C R i = s
  induction C generalizing a b with
  | zero => simp
  | succ n ih =>
    rw [List.range_succ, List.foldl_append]
    simp only [List.foldl_cons, List.foldl_nil, setCell_apply]
    have hj : (List.range n).foldl
        (fun M k => setCell M j k (M j k - theta j i / some (N : ℚ) * D j k * M i k / s)) R j n
          = R j n := by
      rw [ih]
      simp
    have hi : (List.range n).foldl
        (fun M k => setCell M j k (M j k - theta j i / some (N : ℚ) * D j k * M i k / s)) R i n
          = R i n := by
      rw [ih]
      simp
    rw [hj, hi, ih]
    by_cases ha : a = j
    · by_cases hb : b = n
      · simp [ha, hb]
      · by_cases hlt : b < n
        · have : b < n + 1 := by omega
          simp [ha, hb, hlt, this]
        · have : ¬ b < n + 1 := by omega
          simp [ha, hb, hlt, this]
    · simp [ha]

/-- A property of the accumulator that every step of a loop keeps holds at
the end of the loop. -/
theorem foldl_keeps {α β : Type} (P : α → Prop) (f : α → β → α)
    (hf : ∀ z x, P z → P (f z x)) (l : List β) : ∀ z, P z → P (l.foldl f z) := by
  induction l with
  | nil => intro z hz; exact hz
  | cons x xs ih => intro z hz; exact ih _ (hf z x hz)

/-- Every `j < N` splits the loop over `range N` at `j`. -/
theorem range_split (N j : Nat) (hj : j < N) :
    ∃ rest, List.range N = List.range j ++ j :: rest := by
  induction N with
  | zero => omega
  | succ n ih =>
    by_cases h : j = n
    · subst h
      exact ⟨[], List.range_succ j⟩
    · obtain ⟨rest, hr⟩ := ih (by omega)
      refine ⟨rest ++ [n], ?_⟩
      rw [List.range_succ, hr]
      simp

/-- A pair of step 1 keeps a row without finite cells as it is. -/
theorem reducePair_keeps_none (N : Int) (C : Nat) (theta D : Mat) (j : Nat) (M : Mat)
    (j' i' : Nat) (h : ∀ k, k < C → M j k = none) :
    ∀ k, k < C → reducePair N C theta D M j' i' j k = none := by
  intro k hk
  rw [reducePair_apply]
  by_cases hj : j = j'
  · subst hj
    rw [if_pos ⟨rfl, hk⟩, h k hk]
    simp
  · rw [if_neg (fun hc => hj hc.1)]
    exact h k hk

/-- A pair `(j, i)` of step 1 whose normaliser is zero leaves no finite cell
in row `j`. -/
theorem reducePair_zero_normaliser (N : Int) (C : Nat) (theta D M : Mat) (j i : Nat)
    (h : rowSum C M i = some 0) : ∀ k, k < C → reducePair N C theta D M j i j k = none := by
  intro k hk
  rw [reducePair_apply, if_pos ⟨rfl, hk⟩, h]
  simp

/-- A zero normaliser met by a pair `(j, i)` of step 1 leaves no finite cell
in row `j` at the end of step 1. -/
theorem step1_zero_normaliser (N : Int) (C : Nat) (theta D R : Mat) (j i : Nat)
    (hj : j < N.toNat) (hi : i < N.toNat)
    (h : rowSum C (beforePair N C theta D R j i) i = some 0) :
    ∀ k, k < C → step1 N C theta D R j k = none := by
  obtain ⟨restJ, hJ⟩ := range_split N.toNat j hj
  obtain ⟨restI, hI⟩ := range_split N.toNat i hi
  have key : ∀ M : Mat,
      rowSum C ((List.range i).foldl (fun M' i' => reducePair N C theta D M' j i') M) i = some 0 →
      ∀ k, k < C → reduceRow N C theta D M j j k = none := by
    intro M hM
    unfold reduceRow
    rw [hI, List.foldl_append, List.foldl_cons]
    exact foldl_keeps (fun M' : Mat => ∀ k, k < C → M' j k = none) _
      (fun z x hz => reducePair_keeps_none N C theta D j z j x hz) restI _
      (reducePair_zero_normaliser N C theta D _ j i hM)
  have hrow := key _ h
  unfold step1
  rw [hJ, List.foldl_append, List.foldl_cons]
  refine foldl_keeps (fun M' : Mat => ∀ k, k < C → M' j k = none) _ ?_ restJ _ hrow
  intro z x hz
  unfold reduceRow
  exact foldl_keeps (fun M' : Mat => ∀ k, k < C → M' j k = none) _
    (fun z' x' hz' => reducePair_keeps_none N C theta D j z' x x' hz') _ z hz

end Makva

namespace Makva

/-! ## Values that are no finite number -/

/-- The total of a matrix without finite cells is no finite number. -/
theorem total_none (N C : Nat) (R : Mat) (t : Val) (hN : 0 < N) (hC : 0 < C)
    (h : ∀ i k, i < N → k < C → R i k = none) : total N C R t = none := by
  obtain ⟨n, rfl⟩ : ∃ n, N = n + 1 := ⟨N - 1, by omega⟩
  unfold total
  rw [List.range_succ, List.foldl_append]
  simp only [List.foldl_cons, List.foldl_nil]
  exact foldl_add_none C (fun k => R n k) _ 0 hC (h n 0 (by omega) hC)

/-- The test on a current total that is no finite number is undefined. -/
theorem convTest_none (R_s : Val) (eps : ℚ) : convTest R_s none eps = none := by
  simp [convTest]

end Makva

namespace Makva

/-- Division of two finite cells, by cases on the divisor. -/
theorem some_div_some_ite (x y : ℚ) :
    (some x : Val) / some y = if y = 0 then none else some (x / y) := rfl

/-! ## Loops that read only part of a matrix -/

/-- A sum loop depends only on the summands below its bound. -/
theorem foldl_add_congr (n : Nat) (f g : Nat → Val) (z : Val)
    (h : ∀ k, k < n → f k = g k) :
    (List.range n).foldl (fun s k => s + f k) z = (List.range n).foldl (fun s k => s + g k) z :=
  List.foldl_ext _ _ z (fun s k hk => by rw [h k (List.mem_range.mp hk)])

/-- The arrival sum reads `Q` only at the rows of the tasks. -/
theorem arrivalSum_congr (N : Nat) (theta Q Q' : Mat) (i k : Nat)
    (h : ∀ j, j < N → Q j k = Q' j k) :
    arrivalSum N theta Q i k = arrivalSum N theta Q' i k :=
  foldl_add_congr N _ _ _ (fun j hj => by rw [h j hj])

/-- A sum loop either meets a summand that is no finite number, or has only
finite summands. -/
theorem foldl_add_cases (n : Nat) (f : Nat → Val) :
    (∃ k, k < n ∧ f k = none) ∨ (∀ k, k < n → f k = some ((f k).getD 0)) := by
  by_cases h : ∃ k, k < n ∧ f k = none
  · exact Or.inl h
  · right
    intro k hk
    cases hf : f k with
    | none => exact absurd ⟨k, hk, hf⟩ h
    | some q => rfl

end Makva

namespace Makva

/-! ## Double loops as loops over the list of pairs -/

/-- A loop over the list of pairs is the double loop. -/
theorem foldl_pairs {α : Type} (f : α → Nat × Nat → α) (rows cols : Nat) (z : α) :
    (pairs rows cols).foldl f z
      = (List.range rows).foldl
          (fun s a => (List.range cols).foldl (fun s' b => f s' (a, b)) s) z := by
  unfold pairs
  generalize List.range rows = l
  induction l generalizing z with
  | nil => rfl
  | cons a l ih =>
    rw [List.flatMap_cons, List.foldl_append, ih, List.foldl_map]
    rfl

/-- No pair is visited twice. -/
theorem pairs_nodup (rows cols : Nat) : (pairs rows cols).Nodup :=
  List.Nodup.product (List.nodup_range rows) (List.nodup_range cols)

/-- The total is the loop over the pairs that adds each cell. -/
theorem total_eq_foldl_pairs (N C : Nat) (R : Mat) (t : Val) :
    total N C R t = (pairs N C).foldl (fun s p => s + R p.1 p.2) t := by
  rw [foldl_pairs]
  rfl

/-! ## The initial total -/

/-- The loading loop of the response times is a loop over the pairs: read
the cell, then add it to the total. -/
theorem loadResponse_eq_foldl_pairs (N C : Nat) (f : List ℚ) (R : Mat) (t : Val) :
    loadResponse N C f R t
      = (pairs N C).foldl
          (fun st c => (fscanf st.1.2 st.1.1 c.1 c.2, st.2 + (fscanf st.1.2 st.1.1 c.1 c.2).1 c.1 c.2))
          ((R, f), t) := by
  rw [foldl_pairs]
  rfl

/-- A read changes the cell read and no other. -/
theorem fscanf_other (f : List ℚ) (M : Mat) (i k a b : Nat) (h : (a, b) ≠ (i, k)) :
    (fscanf f M i k).1 a b = M a b := by
  have h' : ¬ (a = i ∧ b = k) := fun hc => h (by rw [hc.1, hc.2])
  cases f with
  | nil => rfl
  | cons x rest => simp [fscanf, h']

/-- The loading loop leaves a cell that it does not visit as it was. -/
theorem load_loop_other (cs : List (Nat × Nat)) (c : Nat × Nat) (hc : c ∉ cs) :
    ∀ st : (Mat × List ℚ) × Val,
      (cs.foldl
        (fun st c => (fscanf st.1.2 st.1.1 c.1 c.2, st.2 + (fscanf st.1.2 st.1.1 c.1 c.2).1 c.1 c.2))
        st).1.1 c.1 c.2 = st.1.1 c.1 c.2 := by
  induction cs with
  | nil => intro st; rfl
  | cons x xs ih =>
    intro st
    rw [List.foldl_cons, ih (fun h => hc (List.mem_cons_of_mem _ h))]
    exact fscanf_other _ _ _ _ _ _ (fun h => hc (by rw [show c = x from h]; exact List.mem_cons_self _ _))

/-- The total accumulated while loading is the sum of the cells of the loaded
matrix, over the cells visited. -/
theorem load_loop_total (cs : List (Nat × Nat)) (hcs : cs.Nodup) :
    ∀ st : (Mat × List ℚ) × Val,
      (cs.foldl
        (fun st c => (fscanf st.1.2 st.1.1 c.1 c.2, st.2 + (fscanf st.1.2 st.1.1 c.1 c.2).1 c.1 c.2))
        st).2
      = cs.foldl
          (fun s p => s + (cs.foldl
            (fun st c =>
              (fscanf st.1.2 st.1.1 c.1 c.2, st.2 + (fscanf st.1.2 st.1.1 c.1 c.2).1 c.1 c.2))
            st).1.1 p.1 p.2) st.2 := by
  induction cs with
  | nil => intro st; rfl
  | cons x xs ih =>
    intro st
    have hx : x ∉ xs := (List.nodup_cons.mp hcs).1
    rw [List.foldl_cons, ih (List.nodup_cons.mp hcs).2, List.foldl_cons,
      load_loop_other xs x hx]

/-- When the loop is entered, `R_s` is the sum of the cells of the loaded `R`. -/
theorem load_R_s (a : Args) :
    (load a).R_s = total a.N.toNat a.C.toNat (load a).R (some 0) := by
  simp only [load]
  rw [total_eq_foldl_pairs, loadResponse_eq_foldl_pairs]
  exact load_loop_total _ (pairs_nodup _ _) _

/-- At the start of every iteration the inputs are those loaded and `R_l` is
zero. -/
theorem stateAt_start (v : Vars) (h : v.R_l = some 0) (n : Nat) :
    (stateAt n v).N = v.N ∧ (stateAt n v).C = v.C ∧ (stateAt n v).eps = v.eps ∧
    (stateAt n v).theta = v.theta ∧ (stateAt n v).D = v.D ∧ (stateAt n v).R_l = some 0 := by
  induction n with
  | zero => exact ⟨rfl, rfl, rfl, rfl, rfl, h⟩
  | succ m ih =>
    obtain ⟨h1, h2, h3, h4, h5, -⟩ := ih
    exact ⟨h1, h2, h3, h4, h5, rfl⟩

end Makva

namespace Makva

/-! ## The convergence test and the tolerance -/

/-- The truncated difference is zero exactly when the real difference is
below one in absolute value. -/
theorem truncInt_eq_zero_iff (x : ℚ) : truncInt x = 0 ↔ |x| < 1 := by
  rw [← abs_eq_zero, abs_truncInt, Int.floor_eq_zero_iff]
  constructor
  · intro h
    exact h.2
  · intro h
    exact ⟨abs_nonneg x, h⟩

/-- The integer `abs` of the truncated difference is at most the real
absolute value. -/
theorem abs_truncInt_le (x : ℚ) : ((|truncInt x| : Int) : ℚ) ≤ |x| := by
  rw [abs_truncInt]
  exact Int.floor_le _

/-- The test on two finite totals, by cases on the range of the truncated
difference. -/
theorem convTest_some_some (a b eps : ℚ) :
    convTest (some a) (some b) eps
      = if -(2 : Int) ^ 31 < truncInt (a - b) ∧ truncInt (a - b) < (2 : Int) ^ 31 then
          some (decide (((|truncInt (a - b)| : Int) : ℚ) < eps))
        else none := rfl

end Makva

namespace Makva

/-! ## Rows of `Q` -/

/-- The row sum as a finite sum, when it is a finite number. -/
theorem rowSum_eq_some (C : Nat) (R : Mat) (j : Nat) (s : ℚ) (hs : rowSum C R j = some s) :
    (∀ k, k < C → R j k = some ((R j k).getD 0)) ∧
    s = Finset.sum (Finset.range C) (fun k => (R j k).getD 0) := by
  have hfin : ∀ k, k < C → R j k = some ((R j k).getD 0) :=
    foldl_add_eq_some C (fun k => R j k) (some 0) s hs
  refine ⟨hfin, ?_⟩
  have h := foldl_add_some C (fun k => R j k) (fun k => (R j k).getD 0) 0 hfin
  have h2 : some s = some (0 + Finset.sum (Finset.range C) (fun k => (R j k).getD 0)) := by
    rw [← h]
    exact hs.symm
  simpa using h2

/-- The row sum of a row with finite cells. -/
theorem rowSum_of_some (C : Nat) (R : Mat) (j : Nat) (r : Nat → ℚ)
    (h : ∀ k, k < C → R j k = some (r k)) :
    rowSum C R j = some (Finset.sum (Finset.range C) r) := by
  have h' := foldl_add_some C (fun k => R j k) r 0 h
  unfold rowSum
  rw [h', zero_add]

/-- A row of `R` whose sum is a non-zero number gives a row of `Q` with finite
cells that sum to one. -/
theorem step2_row (N C : Nat) (R Q : Mat) (j : Nat) (s : ℚ) (hj : j < N)
    (hs : rowSum C R j = some s) (hne : s ≠ 0) :
    (∀ k, k < C → step2 N C R Q j k = some ((R j k).getD 0 / s)) ∧
    Finset.sum (Finset.range C) (fun k => (R j k).getD 0 / s) = 1 := by
  obtain ⟨hfin, hsum⟩ := rowSum_eq_some C R j s hs
  constructor
  · intro k hk
    rw [step2_apply, if_pos ⟨hj, hk⟩, hs, hfin k hk]
    exact some_div_some _ _ hne
  · rw [← Finset.sum_div, ← hsum, div_self hne]

/-- A row sum over no center is zero. -/
theorem rowSum_zero_centers (R : Mat) (j : Nat) : rowSum 0 R j = some 0 := rfl

end Makva

namespace Makva

/-! ## Finite cells -/

/-- Step 1 pair by pair. -/
theorem beforePair_succ (N : Int) (C : Nat) (theta D R : Mat) (j i : Nat) :
    beforePair N C theta D R j (i + 1)
      = reducePair N C theta D (beforePair N C theta D R j i) j i := by
  unfold beforePair
  rw [List.range_succ, List.foldl_append]
  rfl

/-- Step 1 row by row. -/
theorem beforePair_next_row (N : Int) (C : Nat) (theta D R : Mat) (j : Nat) :
    beforePair N C theta D R (j + 1) 0 = beforePair N C theta D R j N.toNat := by
  unfold beforePair
  rw [List.range_succ, List.foldl_append]
  rfl

/-- A pair of step 1 whose normaliser is not zero keeps the cells finite. -/
theorem reducePair_finite (N : Int) (C : Nat) (theta D M : Mat) (j i : Nat)
    (hj : j < N.toNat) (hi : i < N.toNat)
    (hM : ∀ a b, a < N.toNat → b < C → ∃ q, M a b = some q)
    (hT : ∀ a b, a < N.toNat → b < N.toNat → ∃ q, theta a b = some q)
    (hD : ∀ a b, a < N.toNat → b < C → ∃ q, D a b = some q)
    (hs : rowSum C M i ≠ some 0) :
    ∀ a b, a < N.toNat → b < C → ∃ q, reducePair N C theta D M j i a b = some q := by
  intro a b ha hb
  rw [reducePair_apply]
  by_cases hab : a = j ∧ b < C
  · rw [if_pos hab]
    have hrow : rowSum C M i
        = some (Finset.sum (Finset.range C) (fun k => (M i k).getD 0)) :=
      rowSum_of_some C M i _ (fun k hk => by
        obtain ⟨q, hq⟩ := hM i k hi hk
        rw [hq]
        rfl)
    have hne : Finset.sum (Finset.range C) (fun k => (M i k).getD 0) ≠ 0 := by
      intro h0
      apply hs
      rw [hrow, h0]
    have hN : ((N : Int) : ℚ) ≠ 0 := by
      have : (0 : Int) < N := by omega
      exact_mod_cast this.ne'
    obtain ⟨m, hm⟩ := hM j b hj hb
    obtain ⟨m', hm'⟩ := hM i b hi hb
    obtain ⟨t, ht⟩ := hT j i hj hi
    obtain ⟨d, hd⟩ := hD j b hj hb
    rw [hrow, hm, hm', ht, hd, some_div_some _ _ hN, some_mul_some, some_mul_some,
      some_div_some _ _ hne, some_sub_some]
    exact ⟨_, rfl⟩
  · rw [if_neg hab]
    exact hM a b ha hb

/-- Step 1 keeps the cells finite when none of its normalisers is zero. -/
theorem step1_finite (N : Int) (C : Nat) (theta D R : Mat)
    (hR : ∀ a b, a < N.toNat → b < C → ∃ q, R a b = some q)
    (hT : ∀ a b, a < N.toNat → b < N.toNat → ∃ q, theta a b = some q)
    (hD : ∀ a b, a < N.toNat → b < C → ∃ q, D a b = some q)
    (hs : ∀ j i, j < N.toNat → i < N.toNat →
      rowSum C (beforePair N C theta D R j i) i ≠ some 0) :
    ∀ a b, a < N.toNat → b < C → ∃ q, step1 N C theta D R a b = some q := by
  have hrow : ∀ j, j < N.toNat →
      (∀ a b, a < N.toNat → b < C → ∃ q, beforePair N C theta D R j 0 a b = some q) →
      ∀ i, i ≤ N.toNat →
        ∀ a b, a < N.toNat → b < C → ∃ q, beforePair N C theta D R j i a b = some q := by
    intro j hj h0 i
    induction i with
    | zero => intro _; exact h0
    | succ m ih =>
      intro hm
      rw [beforePair_succ]
      exact reducePair_finite N C theta D _ j m hj (by omega) (ih (by omega)) hT hD
        (hs j m hj (by omega))
  have hall : ∀ j, j ≤ N.toNat →
      ∀ a b, a < N.toNat → b < C → ∃ q, beforePair N C theta D R j 0 a b = some q := by
    intro j
    induction j with
    | zero => intro _; exact hR
    | succ m ih =>
      intro hm
      rw [beforePair_next_row]
      exact hrow m (by omega) (ih (by omega)) N.toNat (le_refl _)
  exact hall N.toNat (le_refl _)

/-- The loading loop of a table leaves every cell finite. -/
theorem loadTable_finite (rows cols : Nat) (f : List ℚ) (i k : Nat) :
    ∃ q, (loadTable rows cols f allocate).1 i k = some q := by
  have h : ∀ (st : Mat × List ℚ), (∀ i k, ∃ q, st.1 i k = some q) →
      ∀ i k, ∃ q, ((pairs rows cols).foldl (fun st c => fscanf st.2 st.1 c.1 c.2) st).1 i k
        = some q := by
    refine foldl_keeps (fun st : Mat × List ℚ => ∀ i k, ∃ q, st.1 i k = some q) _ ?_ _
    intro st c hst i k
    cases hf : st.2 with
    | nil => simpa [fscanf, hf] using hst i k
    | cons x rest =>
      simp only [fscanf, hf, setCell_apply]
      split
      · exact ⟨x, rfl⟩
      · exact hst i k
  have h2 := h (allocate, f) (fun _ _ => ⟨0, rfl⟩) i k
  rw [foldl_pairs] at h2
  exact h2

/-- The loading loop of the response times leaves every cell finite. -/
theorem loadResponse_finite (N C : Nat) (f : List ℚ) (i k : Nat) :
    ∃ q, (loadResponse N C f allocate (some 0)).1.1 i k = some q := by
  rw [loadResponse_eq_foldl_pairs]
  refine foldl_keeps (fun st : (Mat × List ℚ) × Val => ∀ i k, ∃ q, st.1.1 i k = some q) _ ?_ _
    _ (fun _ _ => ⟨0, rfl⟩) i k
  intro st c hst i k
  cases hf : st.1.2 with
  | nil => simpa [fscanf, hf] using hst i k
  | cons x rest =>
    simp only [fscanf, hf, setCell_apply]
    split
    · exact ⟨x, rfl⟩
    · exact hst i k

end Makva

namespace Makva

/-! ## One center -/

@[simp] theorem mul_some_one (x : Val) : x * (some 1 : Val) = x := by
  cases x with
  | none => rfl
  | some q => simp

/-- With one center, an iteration whose normalisers in step 2 are non-zero
numbers recomputes `R[i][0] = D[i][0] * (1 + Σ_j theta[i][j])` and adds these
cells to the total. -/
theorem body_single_center (v : Vars) (hC : v.C.toNat = 1)
    (hS : ∀ j, j < v.N.toNat → ∃ s : ℚ, s ≠ 0 ∧
      rowSum 1 (step1 v.N 1 v.theta v.D v.R) j = some s) :
    (∀ i, i < v.N.toNat →
      (body v).R i 0 = v.D i 0 * (some 1 + rowSum v.N.toNat v.theta i)) ∧
    (body v).R_l
      = (List.range v.N.toNat).foldl
          (fun t i => t + v.D i 0 * (some 1 + rowSum v.N.toNat v.theta i)) v.R_l := by
  have hQ : ∀ j, j < v.N.toNat → (body v).Q j 0 = some 1 := by
    intro j hj
    obtain ⟨s, hne, hs⟩ := hS j hj
    obtain ⟨hc, hsum⟩ := step2_row v.N.toNat 1 _ v.Q j s hj hs hne
    have h0 := hc 0 (by decide)
    simp only [Finset.range_one, Finset.sum_singleton] at hsum
    rw [hsum] at h0
    simp only [body, hC]
    exact h0
  have hA : ∀ i, i < v.N.toNat → (body v).A i 0 = rowSum v.N.toNat v.theta i := by
    intro i hi
    have hcell : (body v).A i 0 = arrivalSum v.N.toNat v.theta (body v).Q i 0 := by
      simp only [body, hC]
      rw [step3_apply, if_pos ⟨hi, by decide⟩]
    rw [hcell]
    exact foldl_add_congr v.N.toNat _ _ _ (fun j hj => by rw [hQ j hj, mul_some_one])
  have hR : ∀ i, i < v.N.toNat →
      (body v).R i 0 = v.D i 0 * (some 1 + rowSum v.N.toNat v.theta i) := by
    intro i hi
    have hcell : (body v).R i 0 = v.D i 0 * (some 1 + (body v).A i 0) := by
      simp only [body, hC]
      rw [step4_apply, if_pos ⟨hi, by decide⟩]
    rw [hcell, hA i hi]
  refine ⟨hR, ?_⟩
  have ht : (body v).R_l
      = (List.range v.N.toNat).foldl (fun t i => t + (body v).R i 0) v.R_l := by
    show total v.N.toNat v.C.toNat (body v).R v.R_l = _
    rw [hC]
    simp [total]
  rw [ht]
  exact foldl_add_congr v.N.toNat _ _ _ hR

/-- An iteration that meets no zero normaliser on finite tables has non-zero
numbers as normalisers in step 2. -/
theorem normalisers_of_noZero (w : Vars) (h : noZeroNormaliser w)
    (hR : ∀ a b, a < w.N.toNat → b < w.C.toNat → ∃ q, w.R a b = some q)
    (hT : ∀ a b, a < w.N.toNat → b < w.N.toNat → ∃ q, w.theta a b = some q)
    (hD : ∀ a b, a < w.N.toNat → b < w.C.toNat → ∃ q, w.D a b = some q) :
    ∀ j, j < w.N.toNat → ∃ s : ℚ, s ≠ 0 ∧
      rowSum w.C.toNat (step1 w.N w.C.toNat w.theta w.D w.R) j = some s := by
  intro j hj
  have hfin := step1_finite w.N w.C.toNat w.theta w.D w.R hR hT hD h.1
  have hrow := rowSum_of_some w.C.toNat (step1 w.N w.C.toNat w.theta w.D w.R) j
    (fun k => (step1 w.N w.C.toNat w.theta w.D w.R j k).getD 0) (fun k hk => by
      obtain ⟨q, hq⟩ := hfin j k hj hk
      simp [hq])
  refine ⟨_, ?_, hrow⟩
  intro h0
  apply h.2 j hj
  rw [hrow, h0]

end Makva

namespace Makva

/-! ## The convergence test with a 32-bit `int` -/

/-- Within the range of `int`, `INT_MIN` excluded, `abs` is the absolute value. -/
theorem abs32_of_range (t : Int) (hlo : -(2 : Int) ^ 31 < t) (hhi : t < (2 : Int) ^ 31) :
    abs32 t = |t| := by
  unfold abs32
  have h1 : |t| < (2 : Int) ^ 31 := abs_lt.mpr ⟨hlo, hhi⟩
  have h0 : 0 ≤ |t| := abs_nonneg t
  rw [Int.emod_eq_of_lt (by omega) (by omega)]
  omega

/-- The call `abs(INT_MIN)` wraps to `INT_MIN`. -/
theorem abs32_int_min : abs32 (-(2 : Int) ^ 31) = -(2 : Int) ^ 31 := by
  norm_num [abs32]

/-- Where C defines the test, the 32-bit test has the same result. -/
theorem convTest32_of_some (x y : Val) (eps : ℚ) (b : Bool) (h : convTest x y eps = some b) :
    convTest32 x y eps = b := by
  unfold convTest at h
  unfold convTest32
  cases hd : x - y with
  | none => rw [hd] at h; cases h
  | some d =>
    rw [hd] at h
    simp only at h
    split at h
    · rename_i hr
      have hcast : toInt32 (some d) = truncInt d := if_pos ⟨le_of_lt hr.1, hr.2⟩
      rw [hcast, abs32_of_range _ hr.1 hr.2]
      exact Option.some.inj h
    · cases h

/-- Where C leaves the test undefined, the 32-bit test compares `INT_MIN` with
the tolerance. -/
theorem convTest32_of_none (x y : Val) (eps : ℚ) (h : convTest x y eps = none) :
    convTest32 x y eps = decide ((-(2 : ℚ) ^ 31) < eps) := by
  unfold convTest at h
  unfold convTest32
  have hmin : toInt32 (x - y) = -(2 : Int) ^ 31 := by
    cases hd : x - y with
    | none => rfl
    | some d =>
      rw [hd] at h
      simp only at h
      split at h
      · cases h
      · rename_i hr
        by_cases hr' : -(2 : Int) ^ 31 ≤ truncInt d ∧ truncInt d < (2 : Int) ^ 31
        · have hcast : toInt32 (some d) = truncInt d := if_pos hr'
          have : ¬ (-(2 : Int) ^ 31 < truncInt d) := fun hlt => hr ⟨hlt, hr'.2⟩
          rw [hcast]
          omega
        · exact if_neg hr'
  rw [hmin, abs32_int_min]
  push_cast
  rfl

/-- The 32-bit test on two equal totals passes for a positive tolerance. -/
theorem convTest32_self (x : Val) (eps : ℚ) (he : 0 < eps) : convTest32 x x eps = true := by
  cases x with
  | none =>
    have h : convTest none none eps = none := rfl
    rw [convTest32_of_none _ _ _ h]
    have : (-(2 : ℚ) ^ 31) < eps := by linarith [show (0 : ℚ) < 2 ^ 31 by positivity]
    simpa using this
  | some a =>
    have h : convTest (some a) (some a) eps = some (decide ((((|(0 : Int)| : Int) : ℚ)) < eps)) :=
      convTest_some a a eps 0 (by simp [truncInt_zero]) (by norm_num) (by norm_num)
    rw [convTest32_of_some _ _ _ _ h]
    simpa using he

/-- The difference `3000000000` is out of the range of `int`: C leaves the
test undefined. -/
theorem convTest_far (eps : ℚ) : convTest (some 3000000002) (some 2) eps = none := by
  have htr : truncInt ((3000000002 : ℚ) - 2) = 3000000000 := by
    norm_num [truncInt]
  rw [convTest_some_some, htr, if_neg (by norm_num)]

end Makva

namespace Makva

/-! ## C1: the rows of `Q` sum to one -/

/-- C1: for every task `j < N` whose row sum `s` in `R` is a non-zero number,
the row `j` of the matrix `Q` that step 2 computes sums to `1`. -/
theorem step2_row_sum_one (N C : Nat) (R Q : Mat) (j : Nat) (s : ℚ) (hj : j < N)
    (hs : rowSum C R j = some s) (hne : s ≠ 0) :
    rowSum C (step2 N C R Q) j = some 1 := by
  have hfin : ∀ k, k < C → R j k = some ((R j k).getD 0) :=
    foldl_add_eq_some C (fun k => R j k) (some 0) s hs
  have hsum : s = Finset.sum (Finset.range C) (fun k => (R j k).getD 0) := by
    have h := foldl_add_some C (fun k => R j k) (fun k => (R j k).getD 0) 0 hfin
    have h2 : some s = some (0 + Finset.sum (Finset.range C) (fun k => (R j k).getD 0)) := by
      rw [← h]
      exact hs.symm
    simpa using h2
  have hcell : ∀ k, k < C → step2 N C R Q j k = some ((R j k).getD 0 / s) := by
    intro k hk
    rw [step2_apply, if_pos ⟨hj, hk⟩, hs, hfin k hk]
    exact some_div_some _ _ hne
  have h := foldl_add_some C (fun k => step2 N C R Q j k) (fun k => (R j k).getD 0 / s) 0 hcell
  unfold rowSum
  rw [h, zero_add, ← Finset.sum_div, ← hsum, div_self hne]

/-- Witness for C1: one task, two centers, `R = [[1, 3]]`. -/
theorem step2_row_sum_one_witness :
    rowSum 2 (step2 1 2 (fun _ k => if k = 0 then some 1 else some 3) allocate) 0 = some 1 :=
  step2_row_sum_one 1 2 (fun _ k => if k = 0 then some 1 else some 3) allocate 0 4 (by decide)
    (by simp [rowSum]; norm_num) (by norm_num)

end Makva

namespace Makva

/-! ## C2: the convergence contract -/

theorem coarse_cells :
    coarse.N = 1 ∧ coarse.C = 1 ∧ coarse.eps = 1 / 2 ∧
    coarse.theta 0 0 = some 1 ∧ coarse.D 0 0 = some 1 ∧
    coarse.R 0 0 = some (29 / 10) ∧ coarse.R_s = some (29 / 10) ∧ coarse.R_l = some 0 := by
  simp [coarse, load, loadTable, loadResponse, fscanf, allocate]

/-- C2 (the code at the failing input): with tolerance `0.5` and initial total
`2.9`, the first iteration computes the total `2`, the test passes and `2` is
printed, although the two totals differ by `0.9`, which is not below `0.5`. -/
theorem coarse_run_stops_outside_tolerance (init : Locals) (fuel : Nat) :
    (body coarse).R_s = some (29 / 10) ∧
    (body coarse).R_l = some 2 ∧
    (body coarse).eps = 1 / 2 ∧
    main (fuel + 1) init coarseArgv = Outcome.printed (some 2) ∧
    ¬ (|(29 / 10 : ℚ) - 2| < 1 / 2) := by
  obtain ⟨hN, hC, he, ht, hD, hR, hs, hl⟩ := coarse_cells
  obtain ⟨-, -, -, -, hl2⟩ :=
    body_one_one coarse 1 1 (29 / 10) hN hC ht hD hR (by norm_num) (by norm_num)
  have hl3 : (body coarse).R_l = some 2 := by
    rw [hl2, hl]
    norm_num
  have hs2 : (body coarse).R_s = some (29 / 10) := hs
  have he2 : (body coarse).eps = 1 / 2 := he
  have htr : truncInt ((29 / 10 : ℚ) - 2) = 0 := by
    rw [truncInt_of_nonneg _ (by norm_num), Int.floor_eq_iff]
    norm_num
  refine ⟨hs2, hl3, he2, ?_, ?_⟩
  · show loop (fuel + 1) coarse = _
    simp only [loop, hl3, hs2, he2]
    rw [convTest_some _ _ _ 0 htr (by norm_num) (by norm_num)]
    norm_num
  · rw [abs_of_nonneg (by norm_num)]
    norm_num

end Makva

namespace Makva

/-! ## C3: the degenerate run -/

theorem degenerate_cells :
    degenerate.N = 1 ∧ degenerate.C = 1 ∧ degenerate.eps = 1 / 1000000 ∧
    degenerate.theta 0 0 = some 1 ∧ degenerate.D 0 0 = some 1 ∧
    degenerate.R 0 0 = some 2 ∧ degenerate.R_s = some 2 ∧ degenerate.R_l = some 0 := by
  simp [degenerate, load, loadTable, loadResponse, fscanf, allocate]

/-- C3: the degenerate single-task, single-center run.  Step 1 gives
`R[0][0] = 1`, step 2 gives `Q[0][0] = 1`, step 3 gives `A[0][0] = 1`, step 4
gives `R[0][0] = 2`, and the program prints the total `2` at the end of the
first iteration: the loop is still running before it, and stops at it. -/
theorem degenerate_run (init : Locals) (fuel : Nat) :
    step1 degenerate.N degenerate.C.toNat degenerate.theta degenerate.D degenerate.R 0 0
      = some 1 ∧
    (body degenerate).Q 0 0 = some 1 ∧
    (body degenerate).A 0 0 = some 1 ∧
    (body degenerate).R 0 0 = some 2 ∧
    (body degenerate).R_l = some 2 ∧
    main 0 init degenerateArgv = Outcome.running ∧
    main (fuel + 1) init degenerateArgv = Outcome.printed (some 2) := by
  obtain ⟨hN, hC, he, ht, hD, hR, hs, hl⟩ := degenerate_cells
  obtain ⟨h1, hQ, hA, hR2, hl2⟩ :=
    body_one_one degenerate 1 1 2 hN hC ht hD hR (by norm_num) (by norm_num)
  have hl3 : (body degenerate).R_l = some 2 := by
    rw [hl2, hl]
    norm_num
  have hs2 : (body degenerate).R_s = some 2 := hs
  have he2 : (body degenerate).eps = 1 / 1000000 := he
  refine ⟨?_, hQ, hA, ?_, hl3, rfl, ?_⟩
  · rw [h1]
    norm_num
  · rw [hR2]
    norm_num
  · show loop (fuel + 1) degenerate = _
    simp [loop, convTest, hl3, hs2, he2, truncInt_zero]

end Makva

namespace Makva

/-! ## C4: non-negativity -/

theorem isNonneg_iff (v : Val) : isNonneg v = true ↔ ∃ q, v = some q ∧ 0 ≤ q := by
  cases v with
  | none => simp [isNonneg]
  | some q => simp [isNonneg]

theorem skewed_cells :
    skewed.N = 1 ∧ skewed.C = 2 ∧
    skewed.theta 0 0 = some 1 ∧ skewed.D 0 0 = some 2 ∧ skewed.D 0 1 = some 7 ∧
    skewed.R 0 0 = some 2 ∧ skewed.R 0 1 = some 2 := by
  simp [skewed, load, loadTable, loadResponse, fscanf, allocate]

theorem skewed_inputs_nonneg (i k : Nat) :
    isNonneg (skewed.theta i k) = true ∧ isNonneg (skewed.D i k) = true ∧
    isNonneg (skewed.R i k) = true := by
  simp only [skewed, load, loadTable, loadResponse, fscanf, allocate]
  simp
  refine ⟨?_, ?_, ?_⟩ <;> (repeat' split) <;> simp [isNonneg, allocate]

/-- C4 (counterexample): all entries of `theta`, `D` and the initial `R` of
the run `skewed` are non-negative, yet after its first iteration `Q[0][0]`,
`A[0][0]` and the recomputed `R[0][0]` are all `-2`. -/
theorem skewed_iteration_negative :
    (∀ i k, isNonneg (skewed.theta i k) = true ∧ isNonneg (skewed.D i k) = true ∧
      isNonneg (skewed.R i k) = true) ∧
    (body skewed).Q 0 0 = some (-2) ∧ (body skewed).A 0 0 = some (-2) ∧
    (body skewed).R 0 0 = some (-2) := by
  obtain ⟨hN, hC, ht, hD0, hD1, hR0, hR1⟩ := skewed_cells
  have h10 : step1 1 2 skewed.theta skewed.D skewed.R 0 0 = some 1 := by
    simp [step1, reduceRow, reducePair, rowSum, ht, hD0, hD1, hR0, hR1, some_div_some]
    norm_num
  have h11 : step1 1 2 skewed.theta skewed.D skewed.R 0 1 = some (-3 / 2) := by
    simp [step1, reduceRow, reducePair, rowSum, ht, hD0, hD1, hR0, hR1, some_div_some]
    norm_num
  have hQ : step2 1 2 (step1 1 2 skewed.theta skewed.D skewed.R) skewed.Q 0 0 = some (-2) := by
    rw [step2_apply]
    simp [rowSum, h10, h11]
    rw [some_div_some _ _ (by norm_num)]
    norm_num
  have hA : step3 1 2 skewed.theta (step2 1 2 (step1 1 2 skewed.theta skewed.D skewed.R) skewed.Q)
      skewed.A 0 0 = some (-2) := by
    simp [step3_apply, arrivalSum, ht, hQ]
  refine ⟨skewed_inputs_nonneg, ?_, ?_, ?_⟩
  · simp only [body, hN, hC]
    exact hQ
  · simp only [body, hN, hC]
    exact hA
  · simp only [body, hN, hC]
    rw [step4_apply]
    simp [hD0]
    erw [hA]
    norm_num

end Makva

namespace Makva

theorem isNonneg_getD (v : Val) (h : isNonneg v = true) :
    v = some (v.getD 0) ∧ 0 ≤ v.getD 0 := by
  obtain ⟨q, hq, h0⟩ := (isNonneg_iff v).mp h
  subst hq
  exact ⟨rfl, h0⟩

/-- C4 (amended): if `theta` and `D` are entrywise non-negative and the matrix
`R` that step 1 of an iteration leaves is entrywise non-negative with
non-zero row sums, then the `Q`, the `A` and the recomputed `R` of that
iteration are entrywise non-negative. -/
theorem body_nonneg_of_step1_nonneg (v : Vars)
    (hT : ∀ i j, i < v.N.toNat → j < v.N.toNat → isNonneg (v.theta i j) = true)
    (hD : ∀ i k, i < v.N.toNat → k < v.C.toNat → isNonneg (v.D i k) = true)
    (hR : ∀ i k, i < v.N.toNat → k < v.C.toNat →
      isNonneg (step1 v.N v.C.toNat v.theta v.D v.R i k) = true)
    (hS : ∀ j, j < v.N.toNat →
      rowSum v.C.toNat (step1 v.N v.C.toNat v.theta v.D v.R) j ≠ some 0)
    (i k : Nat) (hi : i < v.N.toNat) (hk : k < v.C.toNat) :
    isNonneg ((body v).Q i k) = true ∧ isNonneg ((body v).A i k) = true ∧
    isNonneg ((body v).R i k) = true := by
  -- the queue lengths
  have hQ : ∀ j, j < v.N.toNat → ∀ c, c < v.C.toNat → isNonneg ((body v).Q j c) = true := by
    intro j hj c hc
    set R1 := step1 v.N v.C.toNat v.theta v.D v.R with hR1
    have hrow : rowSum v.C.toNat R1 j
        = some (Finset.sum (Finset.range v.C.toNat) (fun c => (R1 j c).getD 0)) := by
      have h := foldl_add_some v.C.toNat (fun c => R1 j c) (fun c => (R1 j c).getD 0) 0
        (fun c hc => (isNonneg_getD _ (hR j c hj hc)).1)
      unfold rowSum
      rw [h, zero_add]
    have hge : 0 ≤ Finset.sum (Finset.range v.C.toNat) (fun c => (R1 j c).getD 0) :=
      Finset.sum_nonneg (fun c hc =>
        (isNonneg_getD _ (hR j c hj (Finset.mem_range.mp hc))).2)
    have hne : Finset.sum (Finset.range v.C.toNat) (fun c => (R1 j c).getD 0) ≠ 0 := by
      intro h0
      apply hS j hj
      rw [hrow, h0]
    have hcell : (body v).Q j c = R1 j c / rowSum v.C.toNat R1 j := by
      simp only [body]
      rw [step2_apply, if_pos ⟨hj, hc⟩]
    rw [hcell, hrow, (isNonneg_getD _ (hR j c hj hc)).1, some_div_some _ _ hne]
    simp only [isNonneg, decide_eq_true_eq]
    exact div_nonneg (isNonneg_getD _ (hR j c hj hc)).2 hge
  -- the arrival queue lengths
  have hA : ∀ a, a < v.N.toNat → ∀ c, c < v.C.toNat → isNonneg ((body v).A a c) = true := by
    intro a ha c hc
    have hcell : (body v).A a c = arrivalSum v.N.toNat v.theta (body v).Q a c := by
      simp only [body]
      rw [step3_apply, if_pos ⟨ha, hc⟩]
    rw [hcell, arrivalSum_some v.N.toNat v.theta (body v).Q a c
      (fun j => (v.theta a j).getD 0) (fun j => ((body v).Q j c).getD 0)
      (fun j hj => (isNonneg_getD _ (hT a j ha hj)).1)
      (fun j hj => (isNonneg_getD _ (hQ j hj c hc)).1)]
    simp only [isNonneg, decide_eq_true_eq]
    exact Finset.sum_nonneg (fun j hj =>
      mul_nonneg (isNonneg_getD _ (hT a j ha (Finset.mem_range.mp hj))).2
        (isNonneg_getD _ (hQ j (Finset.mem_range.mp hj) c hc)).2)
  refine ⟨hQ i hi k hk, hA i hi k hk, ?_⟩
  have hcell : (body v).R i k = v.D i k * (some 1 + (body v).A i k) := by
    simp only [body]
    rw [step4_apply, if_pos ⟨hi, hk⟩]
  rw [hcell, (isNonneg_getD _ (hD i k hi hk)).1, (isNonneg_getD _ (hA i hi k hk)).1]
  simp only [some_add_some, some_mul_some, isNonneg, decide_eq_true_eq]
  exact mul_nonneg (isNonneg_getD _ (hD i k hi hk)).2
    (add_nonneg zero_le_one (isNonneg_getD _ (hA i hi k hk)).2)

end Makva

namespace Makva

/-- Witness for C4 (amended): the degenerate run, where step 1 leaves
`R = [[1]]`. -/
theorem body_nonneg_of_step1_nonneg_witness :
    isNonneg ((body degenerate).Q 0 0) = true ∧ isNonneg ((body degenerate).A 0 0) = true ∧
    isNonneg ((body degenerate).R 0 0) = true := by
  obtain ⟨hN, hC, -, ht, hD, hR, -, -⟩ := degenerate_cells
  obtain ⟨h1, -⟩ := body_one_one degenerate 1 1 2 hN hC ht hD hR (by norm_num) (by norm_num)
  have hN1 : degenerate.N.toNat = 1 := by rw [hN]; rfl
  have hC1 : degenerate.C.toNat = 1 := by rw [hC]; rfl
  have hz : ∀ i, i < 1 → i = 0 := fun i hi => by omega
  refine body_nonneg_of_step1_nonneg degenerate ?_ ?_ ?_ ?_ 0 0 (by rw [hN1]; decide)
    (by rw [hC1]; decide)
  · intro i j hi hj
    rw [hN1] at hi hj
    rw [hz i hi, hz j hj, ht]
    simp [isNonneg]
  · intro i k hi hk
    rw [hN1] at hi
    rw [hC1] at hk
    rw [hz i hi, hz k hk, hD]
    simp [isNonneg]
  · intro i k hi hk
    rw [hN1] at hi
    rw [hC1] at hk
    rw [hz i hi, hz k hk, h1]
    simp [isNonneg]
  · intro j hj
    rw [hN1] at hj
    rw [hz j hj, hC1]
    simp only [hN, hC, Int.toNat_one] at h1
    simp [rowSum, hN, h1]
    norm_num

end Makva

namespace Makva

/-! ## C5: steps 3 and 4 -/

/-- C5: after one iteration, `Q` is the matrix that step 2 computed from the
result of step 1, and for every task `i` and center `k` the cell `A[i][k]` is
the sum over `j` of `theta[i][j] * Q[j][k]` and the cell `R[i][k]` is
`D[i][k] * (1 + A[i][k])`.  Over finite cells these are the numbers
`Σ_j t j * q j` and `d * (1 + Σ_j t j * q j)`. -/
theorem body_arrival_and_response (v : Vars) (i k : Nat) (hi : i < v.N.toNat)
    (hk : k < v.C.toNat) :
    (body v).Q = step2 v.N.toNat v.C.toNat (step1 v.N v.C.toNat v.theta v.D v.R) v.Q ∧
    (body v).A i k = arrivalSum v.N.toNat v.theta (body v).Q i k ∧
    (body v).R i k = v.D i k * (some 1 + (body v).A i k) ∧
    ∀ (t q : Nat → ℚ) (d : ℚ), (∀ j, j < v.N.toNat → v.theta i j = some (t j)) →
      (∀ j, j < v.N.toNat → (body v).Q j k = some (q j)) → v.D i k = some d →
      (body v).A i k = some (Finset.sum (Finset.range v.N.toNat) (fun j => t j * q j)) ∧
      (body v).R i k
        = some (d * (1 + Finset.sum (Finset.range v.N.toNat) (fun j => t j * q j))) := by
  have hA : (body v).A i k = arrivalSum v.N.toNat v.theta (body v).Q i k := by
    simp only [body]
    rw [step3_apply, if_pos ⟨hi, hk⟩]
  have hR : (body v).R i k = v.D i k * (some 1 + (body v).A i k) := by
    simp only [body]
    rw [step4_apply, if_pos ⟨hi, hk⟩]
  refine ⟨rfl, hA, hR, ?_⟩
  intro t q d ht hq hd
  have hA2 := arrivalSum_some v.N.toNat v.theta (body v).Q i k t q ht hq
  rw [hA2] at hA
  refine ⟨hA, ?_⟩
  rw [hR, hA, hd]
  simp

/-- Witness for C5: the degenerate run, task `0` and center `0`. -/
theorem body_arrival_and_response_witness :
    (body degenerate).A 0 0 = arrivalSum degenerate.N.toNat degenerate.theta (body degenerate).Q 0 0 ∧
    (body degenerate).R 0 0 = degenerate.D 0 0 * (some 1 + (body degenerate).A 0 0) :=
  have h := body_arrival_and_response degenerate 0 0
    (by simp [degenerate, load]) (by simp [degenerate, load])
  ⟨h.2.1, h.2.2.1⟩

end Makva

namespace Makva

/-! ## C6: a run that never stops -/

theorem oscillating_start : oscillatingAt 11 4 oscillating := by
  simp [oscillatingAt, oscillating, load, loadTable, loadResponse, fscanf, allocate]

theorem truncInt_two : truncInt 2 = 2 := by
  simp [truncInt]

theorem truncInt_neg_two : truncInt (-2) = -2 := by
  simp [truncInt]

/-- From `R = [[11, 4]]` the iteration computes `R = [[13, 0]]`; the totals
`15` and `13` fail the test. -/
theorem oscillating_high (w : Vars) (h : oscillatingAt 11 4 w) :
    convTest (body w).R_s (body w).R_l (body w).eps = some false ∧
    oscillatingAt 13 0 (restart (body w)) := by
  obtain ⟨hN, hC, he, ht, hD0, hD1, hR0, hR1, hs, hl⟩ := h
  obtain ⟨-, -, -, -, -, -, hR20, hR21, hl2⟩ :=
    body_one_two w (9 / 2) 2 4 11 4 (22 / 5) (-4 / 5) hN hC ht hD0 hD1 hR0 hR1
      (by norm_num) (by norm_num) (by norm_num) (by norm_num)
  have hR20' : (body w).R 0 0 = some 13 := by
    rw [hR20]
    norm_num
  have hR21' : (body w).R 0 1 = some 0 := by
    rw [hR21]
    norm_num
  have hl3 : (body w).R_l = some 13 := by
    rw [hl2, hl]
    norm_num
  have hs2 : (body w).R_s = some 15 := by
    rw [show (body w).R_s = w.R_s from rfl, hs]
    norm_num
  have he2 : (body w).eps = 1 := he
  refine ⟨?_, hN, hC, he, ht, hD0, hD1, hR20', hR21', ?_, rfl⟩
  · rw [hl3, hs2, he2,
      convTest_some 15 13 1 2 (by norm_num [truncInt_two]) (by norm_num) (by norm_num)]
    norm_num
  · show (body w).R_l = _
    rw [hl3]
    norm_num

/-- From `R = [[13, 0]]` the iteration computes `R = [[11, 4]]`; the totals
`13` and `15` fail the test. -/
theorem oscillating_low (w : Vars) (h : oscillatingAt 13 0 w) :
    convTest (body w).R_s (body w).R_l (body w).eps = some false ∧
    oscillatingAt 11 4 (restart (body w)) := by
  obtain ⟨hN, hC, he, ht, hD0, hD1, hR0, hR1, hs, hl⟩ := h
  obtain ⟨-, -, -, -, -, -, hR20, hR21, hl2⟩ :=
    body_one_two w (9 / 2) 2 4 13 0 4 0 hN hC ht hD0 hD1 hR0 hR1
      (by norm_num) (by norm_num) (by norm_num) (by norm_num)
  have hR20' : (body w).R 0 0 = some 11 := by
    rw [hR20]
    norm_num
  have hR21' : (body w).R 0 1 = some 4 := by
    rw [hR21]
    norm_num
  have hl3 : (body w).R_l = some 15 := by
    rw [hl2, hl]
    norm_num
  have hs2 : (body w).R_s = some 13 := by
    rw [show (body w).R_s = w.R_s from rfl, hs]
    norm_num
  have he2 : (body w).eps = 1 := he
  refine ⟨?_, hN, hC, he, ht, hD0, hD1, hR20', hR21', ?_, rfl⟩
  · rw [hl3, hs2, he2,
      convTest_some 13 15 1 (-2) (by norm_num [truncInt_neg_two]) (by norm_num) (by norm_num)]
    norm_num
  · show (body w).R_l = _
    rw [hl3]
    norm_num

theorem oscillating_stateAt (n : Nat) :
    oscillatingAt 11 4 (stateAt n oscillating) ∨ oscillatingAt 13 0 (stateAt n oscillating) := by
  induction n with
  | zero => exact Or.inl oscillating_start
  | succ m ih =>
    rcases ih with h | h
    · exact Or.inr (oscillating_high _ h).2
    · exact Or.inl (oscillating_low _ h).2

theorem oscillating_loop (fuel : Nat) :
    ∀ w, oscillatingAt 11 4 w ∨ oscillatingAt 13 0 w → loop fuel w = Outcome.running := by
  induction fuel with
  | zero => intro w _; rfl
  | succ m ih =>
    intro w h
    rcases h with h | h
    · obtain ⟨ht, hn⟩ := oscillating_high w h
      simp only [loop, ht]
      exact ih _ (Or.inr hn)
    · obtain ⟨ht, hn⟩ := oscillating_low w h
      simp only [loop, ht]
      exact ih _ (Or.inl hn)

/-- C6: the run `oscillating` has `N = 1 > 0`, `C = 2 > 0`, `eps = 1 > 0` and
non-negative tables, and its totals alternate between `13` and `15`: the
convergence test fails at every iteration index, so the program is still
running after any number of iterations. -/
theorem oscillating_never_stops (init : Locals) (n fuel : Nat) :
    0 < oscillating.N ∧ 0 < oscillating.C ∧ 0 < oscillating.eps ∧
    (∀ i k, isNonneg (oscillating.theta i k) = true ∧ isNonneg (oscillating.D i k) = true ∧
      isNonneg (oscillating.R i k) = true) ∧
    convTest (body (stateAt n oscillating)).R_s (body (stateAt n oscillating)).R_l
      (body (stateAt n oscillating)).eps = some false ∧
    main fuel init oscillatingArgv = Outcome.running := by
  obtain ⟨hN, hC, he, -⟩ := oscillating_start
  refine ⟨by rw [hN]; norm_num, by rw [hC]; norm_num, by rw [he]; norm_num, ?_, ?_, ?_⟩
  · intro i k
    simp only [oscillating, load, loadTable, loadResponse, fscanf, allocate]
    simp
    refine ⟨?_, ?_, ?_⟩ <;> (repeat' split) <;> (simp [isNonneg, allocate]; try norm_num)
  · rcases oscillating_stateAt n with h | h
    · exact (oscillating_high _ h).1
    · exact (oscillating_low _ h).1
  · exact oscillating_loop fuel oscillating (Or.inl oscillating_start)

end Makva

namespace Makva

/-! ## C7: zero normalisers -/

theorem zeroRow_cells :
    zeroRow.N = 1 ∧ zeroRow.C = 1 ∧ zeroRow.eps = 1 ∧
    zeroRow.theta 0 0 = some 1 ∧ zeroRow.D 0 0 = some 1 ∧
    zeroRow.R 0 0 = some 0 ∧ zeroRow.R_s = some 0 ∧ zeroRow.R_l = some 0 := by
  simp [zeroRow, load, loadTable, loadResponse, fscanf, allocate]

/-- C7 (counterexample): in the run `zeroRow` the first normaliser of step 1
is zero.  The division is performed all the same: `R[0][0]` is no finite
number after step 1, steps 2 to 4 go on with it, and the first convergence
test is reached with a total that is no finite number.  No error naming
task `0` is reported. -/
theorem zeroRow_divides_and_continues :
    rowSum zeroRow.C.toNat zeroRow.R 0 = some 0 ∧
    step1 zeroRow.N zeroRow.C.toNat zeroRow.theta zeroRow.D zeroRow.R 0 0 = none ∧
    (body zeroRow).Q 0 0 = none ∧ (body zeroRow).A 0 0 = none ∧
    (body zeroRow).R 0 0 = none ∧ (body zeroRow).R_l = none ∧
    main 1 zeroArgs zeroRowArgv = Outcome.undefinedTest := by
  obtain ⟨hN, hC, he, ht, hD, hR, hs, hl⟩ := zeroRow_cells
  have h1 : step1 1 1 zeroRow.theta zeroRow.D zeroRow.R 0 0 = none := by
    simp [step1, reduceRow, reducePair, rowSum, ht, hD, hR]
  have hQ : step2 1 1 (step1 1 1 zeroRow.theta zeroRow.D zeroRow.R) zeroRow.Q 0 0 = none := by
    simp [step2_apply, h1]
  have hA : step3 1 1 zeroRow.theta
      (step2 1 1 (step1 1 1 zeroRow.theta zeroRow.D zeroRow.R) zeroRow.Q) zeroRow.A 0 0
        = none := by
    simp [step3_apply, arrivalSum, hQ]
  have hR2 : step4 1 1 zeroRow.D (step3 1 1 zeroRow.theta
      (step2 1 1 (step1 1 1 zeroRow.theta zeroRow.D zeroRow.R) zeroRow.Q) zeroRow.A)
      (step1 1 1 zeroRow.theta zeroRow.D zeroRow.R) 0 0 = none := by
    simp [step4_apply, hA]
  have hl2 : (body zeroRow).R_l = none := by
    simp only [body, hN, hC, Int.toNat_one]
    simp [total, hR2]
  refine ⟨?_, ?_, ?_, ?_, ?_, hl2, ?_⟩
  · simp [rowSum, hC, hR]
  · simp only [hN, hC, Int.toNat_one]
    exact h1
  · simp only [body, hN, hC, Int.toNat_one]
    exact hQ
  · simp only [body, hN, hC, Int.toNat_one]
    exact hA
  · simp only [body, hN, hC, Int.toNat_one]
    exact hR2
  · show loop 1 zeroRow = _
    simp [loop, convTest, hl2]

end Makva

namespace Makva

/-- C7 (amended): the program has no check for a zero normaliser.  When, in
an iteration with at least one center, a pair `(j, i)` of step 1 or a task `j`
of step 2 meets a normaliser that is exactly zero, the division is performed:
some row of `Q` and every cell of `A` and of the recomputed `R` hold no
finite number, neither does the total, and the convergence test of that
iteration is reached with it; no error is reported. -/
theorem zero_normaliser_goes_unreported (v : Vars) (fuel : Nat) (hC : 0 < v.C.toNat)
    (h : (∃ j i, j < v.N.toNat ∧ i < v.N.toNat ∧
            rowSum v.C.toNat (beforePair v.N v.C.toNat v.theta v.D v.R j i) i = some 0) ∨
         (∃ j, j < v.N.toNat ∧
            rowSum v.C.toNat (step1 v.N v.C.toNat v.theta v.D v.R) j = some 0)) :
    (∃ j, j < v.N.toNat ∧ ∀ k, k < v.C.toNat → (body v).Q j k = none) ∧
    (∀ i k, i < v.N.toNat → k < v.C.toNat →
      (body v).A i k = none ∧ (body v).R i k = none) ∧
    (body v).R_l = none ∧
    loop (fuel + 1) v = Outcome.undefinedTest := by
  -- a task whose normaliser in step 2 is zero or no finite number
  have hrow : ∃ j, j < v.N.toNat ∧
      (rowSum v.C.toNat (step1 v.N v.C.toNat v.theta v.D v.R) j = none ∨
        rowSum v.C.toNat (step1 v.N v.C.toNat v.theta v.D v.R) j = some 0) := by
    rcases h with ⟨j, i, hj, hi, hz⟩ | ⟨j, hj, hz⟩
    · refine ⟨j, hj, Or.inl ?_⟩
      have hcells := step1_zero_normaliser v.N v.C.toNat v.theta v.D v.R j i hj hi hz
      exact foldl_add_none v.C.toNat
        (fun k => step1 v.N v.C.toNat v.theta v.D v.R j k) _ 0 hC (hcells 0 hC)
    · exact ⟨j, hj, Or.inr hz⟩
  obtain ⟨j, hj, hs⟩ := hrow
  have hQ : ∀ k, k < v.C.toNat → (body v).Q j k = none := by
    intro k hk
    simp only [body]
    rw [step2_apply, if_pos ⟨hj, hk⟩]
    rcases hs with hs | hs <;> rw [hs] <;> simp
  have hA : ∀ i k, i < v.N.toNat → k < v.C.toNat → (body v).A i k = none := by
    intro i k hi hk
    have hcell : (body v).A i k = arrivalSum v.N.toNat v.theta (body v).Q i k := by
      simp only [body]
      rw [step3_apply, if_pos ⟨hi, hk⟩]
    rw [hcell]
    exact foldl_add_none v.N.toNat (fun j' => v.theta i j' * (body v).Q j' k) _ j hj
      (by simp [hQ k hk])
  have hR : ∀ i k, i < v.N.toNat → k < v.C.toNat → (body v).R i k = none := by
    intro i k hi hk
    have hcell : (body v).R i k = v.D i k * (some 1 + (body v).A i k) := by
      simp only [body]
      rw [step4_apply, if_pos ⟨hi, hk⟩]
    rw [hcell, hA i k hi hk]
    simp
  have hl : (body v).R_l = none :=
    total_none v.N.toNat v.C.toNat (body v).R v.R_l (by omega) hC hR
  refine ⟨⟨j, hj, hQ⟩, fun i k hi hk => ⟨hA i k hi hk, hR i k hi hk⟩, hl, ?_⟩
  simp only [loop, hl, convTest_none]

/-- Witness for C7 (amended): the run `zeroRow`, whose first pair of step 1
has the normaliser zero. -/
theorem zero_normaliser_goes_unreported_witness :
    (body zeroRow).R_l = none ∧ loop 1 zeroRow = Outcome.undefinedTest :=
  have h := zero_normaliser_goes_unreported zeroRow 0 (by decide)
    (Or.inl ⟨0, 0, by decide, by decide, by
      simp [beforePair, rowSum, zeroRow, load, loadResponse, fscanf, allocate]⟩)
  ⟨h.2.2.1, h.2.2.2⟩

end Makva

namespace Makva

/-! ## C8: configuration values -/

end Makva

namespace Makva

/-! ## C9: short input streams -/

/-- The loading loop of a table with two rows and two columns: cell `(i, k)`
receives token `2 * i + k` when the stream has one, and keeps the `0` of
`allocate` otherwise. -/
theorem loadTable_two_two (f : List ℚ) (i k : Nat) (hi : i < 2) (hk : k < 2) :
    (loadTable 2 2 f allocate).1 i k = some (f.getD (2 * i + k) 0) := by
  rcases f with _ | ⟨a, _ | ⟨b, _ | ⟨c, _ | ⟨d, rest⟩⟩⟩⟩ <;>
    interval_cases i <;> interval_cases k <;>
    simp [loadTable, fscanf, allocate]

/-- The loading loop of the response times with two rows and two columns. -/
theorem loadResponse_two_two (f : List ℚ) (i k : Nat) (hi : i < 2) (hk : k < 2) :
    (loadResponse 2 2 f allocate (some 0)).1.1 i k = some (f.getD (2 * i + k) 0) := by
  rcases f with _ | ⟨a, _ | ⟨b, _ | ⟨c, _ | ⟨d, rest⟩⟩⟩⟩ <;>
    interval_cases i <;> interval_cases k <;>
    simp [loadResponse, fscanf, allocate]

/-- C9 (counterexample): with `N = 2`, `C = 2` and only three response
tokens, the loader reports nothing: `R[1][1]` is left at `0`, the initial total
is `3`, and the solve goes on to print the total `4` at its first iteration. -/
theorem short_stream_is_loaded :
    short.R 1 1 = some 0 ∧ short.R_s = some 3 ∧
    main 1 zeroArgs shortArgv = Outcome.printed (some 4) := by
  have hN : short.N = 2 := rfl
  have hC : short.C = 2 := rfl
  have he : short.eps = 2 := rfl
  have h2 : (2 : Int).toNat = 2 := rfl
  have hT : ∀ i j, short.theta i j = some 0 := by
    intro i j
    simp only [short, load, loadTable, fscanf]
    simp
    intros
    rfl
  have hD : ∀ i k, i < 2 → k < 2 → short.D i k = some 1 := by
    intro i k hi hk
    have h := loadTable_two_two [1, 1, 1, 1] i k hi hk
    interval_cases i <;> interval_cases k <;> simpa using h
  have hR : short.R 0 0 = some 1 ∧ short.R 0 1 = some 1 ∧ short.R 1 0 = some 1 ∧
      short.R 1 1 = some 0 := by
    simp [short, load, loadResponse, fscanf, allocate]
  have hs : short.R_s = some 3 := by
    simp [short, load, loadResponse, fscanf, allocate]
    norm_num
  obtain ⟨hR00, hR01, hR10, hR11⟩ := hR
  have h1 : step1 2 2 short.theta short.D short.R 0 0 = some 1 ∧
      step1 2 2 short.theta short.D short.R 0 1 = some 1 ∧
      step1 2 2 short.theta short.D short.R 1 0 = some 1 ∧
      step1 2 2 short.theta short.D short.R 1 1 = some 0 := by
    simp [step1, reduceRow, reducePair, rowSum, hT, hD, hR00, hR01, hR10, hR11, some_div_some]
  obtain ⟨h100, h101, h110, h111⟩ := h1
  have hA : ∀ i k, i < 2 → k < 2 →
      step3 2 2 short.theta (step2 2 2 (step1 2 2 short.theta short.D short.R) short.Q)
        short.A i k = some 0 := by
    intro i k hi hk
    rw [step3_apply, if_pos ⟨hi, hk⟩]
    interval_cases i <;> interval_cases k <;>
      simp [arrivalSum, hT, step2_apply, rowSum, h100, h101, h110, h111, some_div_some]
  have hR2 : ∀ i k, i < 2 → k < 2 →
      step4 2 2 short.D
        (step3 2 2 short.theta (step2 2 2 (step1 2 2 short.theta short.D short.R) short.Q)
          short.A) (step1 2 2 short.theta short.D short.R) i k = some 1 := by
    intro i k hi hk
    rw [step4_apply, if_pos ⟨hi, hk⟩, hA i k hi hk, hD i k hi hk]
    simp
  have hl : (body short).R_l = some 4 := by
    simp only [body, hN, hC, h2]
    simp [total, hR2, show short.R_l = some 0 from rfl]
    norm_num
  have hs2 : (body short).R_s = some 3 := hs
  have he2 : (body short).eps = 2 := he
  refine ⟨hR11, hs, ?_⟩
  show loop 1 short = _
  simp only [loop, hl, hs2, he2]
  rw [convTest_some 3 4 2 (-1) (by norm_num [truncInt]) (by norm_num) (by norm_num)]
  norm_num

/-- C9 (amended): with `N = 2` and `C = 2` the loader reports no malformed
input.  When one of the three files is not open the program crashes in
`fscanf`.  When the three files are open, for each of the three tables cell
`(i, k)` receives token `2 * i + k` of the stream when the stream has that
token and is left at `0` otherwise, and the program goes on to the iteration
loop. -/
theorem load_two_two_fills_with_zero (fuel : Nat) (init l : Locals) (argv : List Opt)
    (h : getopts argv init = some l) (hN : l.N = 2) (hC : l.C = 2) :
    ((l.response = none ∨ l.demand = none ∨ l.overlap = none) →
      main fuel init argv = Outcome.crash) ∧
    (∀ r d o : List ℚ, l.response = some r → l.demand = some d → l.overlap = some o →
      main fuel init argv = loop fuel (load ⟨2, 2, l.eps, r, d, o⟩) ∧
      main fuel init argv ≠ Outcome.usage ∧ main fuel init argv ≠ Outcome.crash ∧
      ∀ i k : Nat, i < 2 → k < 2 →
        (load ⟨2, 2, l.eps, r, d, o⟩).R i k = some (r.getD (2 * i + k) 0) ∧
        (load ⟨2, 2, l.eps, r, d, o⟩).D i k = some (d.getD (2 * i + k) 0) ∧
        (load ⟨2, 2, l.eps, r, d, o⟩).theta i k = some (o.getD (2 * i + k) 0)) := by
  constructor
  · intro hnone
    have hopen : openFiles l = none := by
      unfold openFiles
      rw [hN, hC]
      rcases hnone with hr | hd | ho
      · rw [hr]
        rfl
      · rw [hd]
        cases l.response <;> rfl
      · rw [ho]
        cases l.response <;> cases l.demand <;> rfl
    simp [main, h, hopen]
  · intro r d o hr hd ho
    have hopen : openFiles l = some ⟨2, 2, l.eps, r, d, o⟩ := by
      unfold openFiles
      rw [hr, hd, ho, hN, hC]
      simp [stream_some]
    have hm := main_of_getopts fuel init l _ argv h hopen
    refine ⟨hm, ?_, ?_, ?_⟩
    · rw [hm]
      exact loop_ne_usage fuel _
    · rw [hm]
      exact loop_ne_crash fuel _
    · intro i k hi hk
      exact ⟨loadResponse_two_two _ i k hi hk, loadTable_two_two _ i k hi hk,
        loadTable_two_two _ i k hi hk⟩

/-- Witness for C9 (amended): the command line `shortArgv`, cell `(1, 1)`. -/
theorem load_two_two_fills_with_zero_witness :
    main 1 zeroArgs shortArgv = loop 1 (load ⟨2, 2, 2, [1, 1, 1], [1, 1, 1, 1], [0, 0, 0, 0]⟩) ∧
    (load ⟨2, 2, 2, [1, 1, 1], [1, 1, 1, 1], [0, 0, 0, 0]⟩).R 1 1 = some 0 :=
  have h := (load_two_two_fills_with_zero 1 zeroArgs
    ⟨2, 2, 2, some [1, 1, 1], some [1, 1, 1, 1], some [0, 0, 0, 0]⟩ shortArgv rfl rfl rfl).2
    [1, 1, 1] [1, 1, 1, 1] [0, 0, 0, 0] rfl rfl rfl
  ⟨h.1, (h.2.2.2 1 1 (by decide) (by decide)).1⟩

end Makva

namespace Makva

/-! ## C10: read-only inputs -/

/-- C10: one full iteration of the loop (steps 1 to 4, the total, and the
update made when the test fails) leaves the overlap matrix `theta`, the
demand matrix `D` and the scalars `N`, `C`, `eps` unchanged, and so does any
number of iterations. -/
theorem iteration_keeps_inputs (v : Vars) (n : Nat) :
    ((body v).theta = v.theta ∧ (body v).D = v.D) ∧
    ((restart (body v)).theta = v.theta ∧ (restart (body v)).D = v.D ∧
      (restart (body v)).N = v.N ∧ (restart (body v)).C = v.C ∧
      (restart (body v)).eps = v.eps) ∧
    ((stateAt n v).theta = v.theta ∧ (stateAt n v).D = v.D ∧
      (stateAt n v).N = v.N ∧ (stateAt n v).C = v.C ∧ (stateAt n v).eps = v.eps) := by
  refine ⟨⟨rfl, rfl⟩, ⟨rfl, rfl, rfl, rfl, rfl⟩, ?_⟩
  induction n with
  | zero => exact ⟨rfl, rfl, rfl, rfl, rfl⟩
  | succ m ih =>
    obtain ⟨h1, h2, h3, h4, h5⟩ := ih
    exact ⟨h1, h2, h3, h4, h5⟩

end Makva

namespace Makva

/-! ## C11: `Q` and `A` are scratch matrices -/

/-- C11: the matrix `R` and the total that an iteration produces do not
depend on the contents of `Q` and `A` when the iteration begins: for any two
choices of them the results are the same, and so are the cells of `Q` and `A`
that the iteration writes. -/
theorem body_ignores_scratch (v : Vars) (Q' A' : Mat) :
    (body { v with Q := Q', A := A' }).R = (body v).R ∧
    (body { v with Q := Q', A := A' }).R_l = (body v).R_l ∧
    ∀ i k, i < v.N.toNat → k < v.C.toNat →
      (body { v with Q := Q', A := A' }).Q i k = (body v).Q i k ∧
      (body { v with Q := Q', A := A' }).A i k = (body v).A i k := by
  have hQ : ∀ i k, i < v.N.toNat → k < v.C.toNat →
      (body { v with Q := Q', A := A' }).Q i k = (body v).Q i k := by
    intro i k hi hk
    simp only [body]
    rw [step2_apply, step2_apply, if_pos ⟨hi, hk⟩, if_pos ⟨hi, hk⟩]
  have hA : ∀ i k, i < v.N.toNat → k < v.C.toNat →
      (body { v with Q := Q', A := A' }).A i k = (body v).A i k := by
    intro i k hi hk
    have h1 : (body { v with Q := Q', A := A' }).A i k
        = arrivalSum v.N.toNat v.theta (body { v with Q := Q', A := A' }).Q i k := by
      simp only [body]
      rw [step3_apply, if_pos ⟨hi, hk⟩]
    have h2 : (body v).A i k = arrivalSum v.N.toNat v.theta (body v).Q i k := by
      simp only [body]
      rw [step3_apply, if_pos ⟨hi, hk⟩]
    rw [h1, h2]
    exact arrivalSum_congr _ _ _ _ i k (fun j hj => hQ j k hj hk)
  have hR : (body { v with Q := Q', A := A' }).R = (body v).R := by
    funext a b
    have h1 : (body { v with Q := Q', A := A' }).R a b
        = if a < v.N.toNat ∧ b < v.C.toNat then
            v.D a b * (some 1 + (body { v with Q := Q', A := A' }).A a b)
          else step1 v.N v.C.toNat v.theta v.D v.R a b := by
      simp only [body]
      rw [step4_apply]
    have h2 : (body v).R a b
        = if a < v.N.toNat ∧ b < v.C.toNat then v.D a b * (some 1 + (body v).A a b)
          else step1 v.N v.C.toNat v.theta v.D v.R a b := by
      simp only [body]
      rw [step4_apply]
    rw [h1, h2]
    by_cases hab : a < v.N.toNat ∧ b < v.C.toNat
    · rw [if_pos hab, if_pos hab, hA a b hab.1 hab.2]
    · rw [if_neg hab, if_neg hab]
  refine ⟨hR, ?_, fun i k hi hk => ⟨hQ i k hi hk, hA i k hi hk⟩⟩
  show total v.N.toNat v.C.toNat (body { v with Q := Q', A := A' }).R v.R_l
    = total v.N.toNat v.C.toNat (body v).R v.R_l
  rw [hR]

end Makva

namespace Badue

open Makva

/-! ## C12: the fork-join bounds -/

end Badue

namespace Makva

/-! ## C13: the in-place update of step 1 -/

/-- The in-place loop over `k` of a pair is the simultaneous update. -/
theorem reducePair_eq_simultaneousPair (N : Int) (C : Nat) (theta D R : Mat) (j i : Nat) :
    reducePair N C theta D R j i = simultaneousPair N C theta D R j i := by
  funext a b
  rw [reducePair_apply]
  rfl

/-- C13: step 1 visits the pairs `(j, i)` with `j` outer and `i` inner, and
for each pair, `i = j` included, the in-place loop over `k` sets every
`R[j][k]` to `R[j][k] - theta[j][i] / N * D[j][k] * R[i][k] / s`, where `s` and
all values of `R` are those of the matrix when the pair began (`beforePair`):
the pass equals the sequence of simultaneous row updates. -/
theorem step1_is_sequence_of_simultaneous_updates (N : Int) (C : Nat) (theta D R : Mat) :
    step1 N C theta D R = step1Simultaneous N C theta D R ∧
    (∀ M j i, reducePair N C theta D M j i = simultaneousPair N C theta D M j i) ∧
    beforePair N C theta D R 0 0 = R ∧
    (∀ j i, beforePair N C theta D R j (i + 1)
      = simultaneousPair N C theta D (beforePair N C theta D R j i) j i) ∧
    (∀ j, beforePair N C theta D R (j + 1) 0 = beforePair N C theta D R j N.toNat) ∧
    step1 N C theta D R = beforePair N C theta D R N.toNat 0 := by
  refine ⟨?_, fun M j i => reducePair_eq_simultaneousPair N C theta D M j i, rfl, ?_, ?_, rfl⟩
  · unfold step1Simultaneous step1 reduceRow
    rw [foldl_pairs]
    simp only [reducePair_eq_simultaneousPair]
  · intro j i
    rw [← reducePair_eq_simultaneousPair]
    unfold beforePair
    rw [List.range_succ, List.foldl_append]
    rfl
  · intro j
    unfold beforePair
    rw [List.range_succ, List.foldl_append]
    rfl

end Makva

namespace Makva

/-! ## C14: step 1 is order-sensitive -/

theorem ordered_cells :
    ordered.N = 2 ∧ ordered.C = 2 ∧
    (ordered.theta 0 0 = some 1 ∧ ordered.theta 0 1 = some 0 ∧
      ordered.theta 1 0 = some 1 ∧ ordered.theta 1 1 = some 0) ∧
    (ordered.D 0 0 = some 4 ∧ ordered.D 0 1 = some 0 ∧
      ordered.D 1 0 = some 2 ∧ ordered.D 1 1 = some 2) ∧
    (ordered.R 0 0 = some 1 ∧ ordered.R 0 1 = some 1 ∧
      ordered.R 1 0 = some 1 ∧ ordered.R 1 1 = some 1) := by
  simp [ordered, load, loadTable, loadResponse, fscanf, allocate]

/-- C14: on the run `ordered` every normaliser of step 1 is a non-zero number,
in the in-place pass (`2`, `2`, `1`, `1` for the pairs `(0,0)`, `(0,1)`, `(1,0)`,
`(1,1)`) and in the snapshot variant (`2` for both rows), and the two passes
give different matrices: `R[1][0]` is `1` in place and `1/2` from the snapshot. -/
theorem step1_differs_from_snapshot :
    (rowSum 2 (beforePair 2 2 ordered.theta ordered.D ordered.R 0 0) 0 = some 2 ∧
      rowSum 2 (beforePair 2 2 ordered.theta ordered.D ordered.R 0 1) 1 = some 2 ∧
      rowSum 2 (beforePair 2 2 ordered.theta ordered.D ordered.R 1 0) 0 = some 1 ∧
      rowSum 2 (beforePair 2 2 ordered.theta ordered.D ordered.R 1 1) 1 = some 1) ∧
    (rowSum 2 ordered.R 0 = some 2 ∧ rowSum 2 ordered.R 1 = some 2) ∧
    step1 ordered.N ordered.C.toNat ordered.theta ordered.D ordered.R 1 0 = some 1 ∧
    step1Snapshot ordered.N ordered.C.toNat ordered.theta ordered.D ordered.R 1 0
      = some (1 / 2) ∧
    step1 ordered.N ordered.C.toNat ordered.theta ordered.D ordered.R
      ≠ step1Snapshot ordered.N ordered.C.toNat ordered.theta ordered.D ordered.R := by
  obtain ⟨hN, hC, ⟨ht00, ht01, ht10, ht11⟩, ⟨hD00, hD01, hD10, hD11⟩,
    ⟨hR00, hR01, hR10, hR11⟩⟩ := ordered_cells
  have h2 : (2 : Int).toNat = 2 := rfl
  have hin : step1 2 2 ordered.theta ordered.D ordered.R 1 0 = some 1 := by
    simp [step1, reduceRow, reducePair, rowSum, ht00, ht01, ht10, ht11, hD00, hD01, hD10, hD11,
      hR00, hR01, hR10, hR11, some_div_some_ite]
    norm_num [some_div_some_ite]
  have hsnap : step1Snapshot 2 2 ordered.theta ordered.D ordered.R 1 0 = some (1 / 2) := by
    simp [step1Snapshot, rowSum, ht00, ht01, ht10, ht11, hD00, hD01, hD10, hD11,
      hR00, hR01, hR10, hR11, some_div_some_ite]
    norm_num [some_div_some_ite]
  refine ⟨⟨?_, ?_, ?_, ?_⟩, ⟨?_, ?_⟩, ?_, ?_, ?_⟩
  · simp [beforePair, rowSum, hR00, hR01]
    norm_num [some_div_some_ite]
  · simp [beforePair, reducePair, rowSum, ht00, hD00, hD01, hR00, hR01, hR10, hR11,
      some_div_some_ite]
    norm_num [some_div_some_ite]
  · simp [beforePair, reduceRow, reducePair, rowSum, ht00, ht01, hD00, hD01, hR00, hR01,
      hR10, hR11, some_div_some_ite]
    norm_num [some_div_some_ite]
  · simp [beforePair, reduceRow, reducePair, rowSum, ht00, ht01, ht10, hD00, hD01, hD10, hD11,
      hR00, hR01, hR10, hR11, some_div_some_ite]
    norm_num [some_div_some_ite]
  · simp [rowSum, hR00, hR01]
    norm_num [some_div_some_ite]
  · simp [rowSum, hR10, hR11]
    norm_num [some_div_some_ite]
  · simp only [hN, hC, h2]
    exact hin
  · simp only [hN, hC, h2]
    exact hsnap
  · simp only [hN, hC, h2]
    intro h
    have h' := congrFun (congrFun h 1) 0
    rw [hin, hsnap] at h'
    norm_num at h'

end Makva

namespace Makva

/-! ## C15: the totals of one iteration -/

/-- C15: totals are not accumulated across iterations.  At the convergence
test of every iteration `n` of a run, `R_l` is the sum, started from zero, of
the cells of the matrix `R` that step 4 of that iteration recomputed; `R_s` is
the sum of the cells of the initial `R` at the first test, and the `R_l` of
the previous test afterwards. -/
theorem totals_are_per_iteration (a : Args) (n : Nat) :
    (body (stateAt n (load a))).R_l
      = total a.N.toNat a.C.toNat (body (stateAt n (load a))).R (some 0) ∧
    (body (stateAt 0 (load a))).R_s = total a.N.toNat a.C.toNat (load a).R (some 0) ∧
    (body (stateAt (n + 1) (load a))).R_s = (body (stateAt n (load a))).R_l := by
  obtain ⟨hN, hC, -, -, -, hl⟩ := stateAt_start (load a) rfl n
  refine ⟨?_, load_R_s a, rfl⟩
  show total (stateAt n (load a)).N.toNat (stateAt n (load a)).C.toNat
    (body (stateAt n (load a))).R (stateAt n (load a)).R_l = _
  rw [hN, hC, hl]
  rfl

end Makva

namespace Makva

/-! ## C16: integer truncation and the tolerance check -/

/-- C16 (counterexample, as the negation of the claim): there are no totals
and no tolerance `eps > 0` with `|R_prev - R_curr| < eps` for which the
convergence test of the code fails. -/
theorem no_spurious_failure :
    ¬ ∃ a b eps : ℚ, 0 < eps ∧ |a - b| < eps ∧ convTest (some a) (some b) eps = some false := by
  rintro ⟨a, b, eps, -, hlt, h⟩
  rw [convTest_some_some] at h
  split at h
  · have h1 : ¬ (((|truncInt (a - b)| : Int) : ℚ) < eps) := by
      simpa using h
    exact h1 (lt_of_le_of_lt (abs_truncInt_le _) hlt)
  · cases h

/-- C16 (amended): integer truncation can make the tolerance check pass
spuriously, never fail spuriously.  Whenever `|R_prev - R_curr| < eps` the test
does not fail, and it passes when the truncated difference lies strictly
between `-2^31` and `2^31`; and the test passes for the totals `2.9` and `2`
with `eps = 0.5`, whose difference `0.9` is not below `eps`. -/
theorem truncation_only_passes (a b eps : ℚ) (h : |a - b| < eps) :
    convTest (some a) (some b) eps ≠ some false ∧
    (-(2 : Int) ^ 31 < truncInt (a - b) ∧ truncInt (a - b) < (2 : Int) ^ 31 →
      convTest (some a) (some b) eps = some true) ∧
    (convTest (some (29 / 10)) (some 2) (1 / 2) = some true ∧
      ¬ (|(29 / 10 : ℚ) - 2| < 1 / 2)) := by
  have hlt : ((|truncInt (a - b)| : Int) : ℚ) < eps := lt_of_le_of_lt (abs_truncInt_le _) h
  refine ⟨?_, ?_, ?_, ?_⟩
  · rw [convTest_some_some]
    split
    · simpa using hlt
    · intro hc
      cases hc
  · intro hr
    rw [convTest_some_some, if_pos hr]
    simpa using hlt
  · have htr : truncInt ((29 / 10 : ℚ) - 2) = 0 := by
      rw [truncInt_eq_zero_iff, abs_of_nonneg (by norm_num)]
      norm_num
    rw [convTest_some _ _ _ 0 htr (by norm_num) (by norm_num)]
    norm_num
  · rw [abs_of_nonneg (by norm_num)]
    norm_num

/-- Witness for C16 (amended): the totals `2.9` and `2` with `eps = 1`. -/
theorem truncation_only_passes_witness :
    convTest (some (29 / 10)) (some 2) 1 ≠ some false :=
  (truncation_only_passes (29 / 10) 2 1 (by rw [abs_of_nonneg (by norm_num)]; norm_num)).1

end Makva

namespace Makva

/-! ## C17: the effective tolerance -/

end Makva

namespace Makva

/-! ## C18: the closed form for one center -/

/-- With one task and one center no normaliser is zero when `R[0][0]` and
`R[0][0] - theta[0][0] * D[0][0]` are not. -/
theorem noZeroNormaliser_one_one (v : Vars) (t d r : ℚ) (hN : v.N = 1) (hC : v.C = 1)
    (ht : v.theta 0 0 = some t) (hD : v.D 0 0 = some d) (hR : v.R 0 0 = some r)
    (hr : r ≠ 0) (hr1 : r - t * d ≠ 0) : noZeroNormaliser v := by
  obtain ⟨h1, -⟩ := body_one_one v t d r hN hC ht hD hR hr hr1
  have hN1 : v.N.toNat = 1 := by rw [hN]; rfl
  have hC1 : v.C.toNat = 1 := by rw [hC]; rfl
  constructor
  · intro j i hj hi
    rw [hN1] at hj hi
    have hj0 : j = 0 := by omega
    have hi0 : i = 0 := by omega
    subst hj0
    subst hi0
    rw [hC1]
    show rowSum 1 v.R 0 ≠ some 0
    simp [rowSum, hR, hr]
  · intro j hj
    rw [hN1] at hj
    have hj0 : j = 0 := by omega
    subst hj0
    rw [hC1] at h1 ⊢
    simp [rowSum, h1, hr1]

theorem far_cells :
    far.N = 1 ∧ far.C = 1 ∧ far.eps = 1 ∧
    far.theta 0 0 = some 1 ∧ far.D 0 0 = some 1 ∧
    far.R 0 0 = some 3000000002 ∧ far.R_s = some 3000000002 ∧ far.R_l = some 0 := by
  simp [far, load, loadTable, loadResponse, fscanf, allocate]

/-- C18: for one center, `eps > 0` and any `N`, if no zero normaliser is met
in the first iteration, nor in the second one when the first test fails, the
loop stops after at most two iterations and prints
`Σ_i D[i][0] * (1 + Σ_j theta[i][j])`, whatever the initial `R` is. -/
theorem single_center_closed_form (a : Args) (fuel : Nat) (hC : a.C = 1) (he : 0 < a.eps)
    (h1 : noZeroNormaliser (load a))
    (h2 : convTest32 (load a).R_s (closedForm a.N.toNat (load a).theta (load a).D) a.eps
        = false → noZeroNormaliser (restart (body (load a)))) :
    loop32 (fuel + 2) (load a)
      = Outcome.printed (closedForm a.N.toNat (load a).theta (load a).D) := by
  have hC1 : (load a).C.toNat = 1 := by
    show a.C.toNat = 1
    rw [hC]
    rfl
  have hTfin : ∀ i k, ∃ q, (load a).theta i k = some q :=
    fun i k => loadTable_finite _ _ _ i k
  have hDfin : ∀ i k, ∃ q, (load a).D i k = some q :=
    fun i k => loadTable_finite _ _ _ i k
  have hRfin : ∀ i k, ∃ q, (load a).R i k = some q :=
    fun i k => loadResponse_finite _ _ _ i k
  -- the first iteration
  have hS1 := normalisers_of_noZero (load a) h1 (fun i k _ _ => hRfin i k)
    (fun i k _ _ => hTfin i k) (fun i k _ _ => hDfin i k)
  rw [hC1] at hS1
  obtain ⟨hR1, hl1⟩ := body_single_center (load a) hC1 hS1
  have hl1' : (body (load a)).R_l = closedForm a.N.toNat (load a).theta (load a).D := hl1
  have hstep : loop32 (fuel + 2) (load a)
      = if convTest32 (load a).R_s (closedForm a.N.toNat (load a).theta (load a).D) a.eps
        then Outcome.printed (closedForm a.N.toNat (load a).theta (load a).D)
        else loop32 (fuel + 1) (restart (body (load a))) := by
    rw [← hl1']
    rfl
  rw [hstep]
  cases hc : convTest32 (load a).R_s (closedForm a.N.toNat (load a).theta (load a).D) a.eps with
  | true => rfl
  | false =>
    -- the second iteration
    have hC2 : (restart (body (load a))).C.toNat = 1 := hC1
    have hR2fin : ∀ i k, i < (restart (body (load a))).N.toNat →
        k < (restart (body (load a))).C.toNat → ∃ q, (restart (body (load a))).R i k = some q := by
      intro i k hi hk
      rw [hC2] at hk
      have hk0 : k = 0 := by omega
      subst hk0
      show ∃ q, (body (load a)).R i 0 = some q
      rw [hR1 i hi]
      obtain ⟨d, hd⟩ := hDfin i 0
      have hrow := rowSum_of_some a.N.toNat (load a).theta i
        (fun j => ((load a).theta i j).getD 0) (fun j _ => by
          obtain ⟨q, hq⟩ := hTfin i j
          simp [hq])
      have hrow' : rowSum (load a).N.toNat (load a).theta i = _ := hrow
      rw [hd, hrow']
      exact ⟨_, rfl⟩
    have hS2 := normalisers_of_noZero (restart (body (load a))) (h2 hc) hR2fin
      (fun i k _ _ => hTfin i k) (fun i k _ _ => hDfin i k)
    rw [hC2] at hS2
    obtain ⟨-, hl2⟩ := body_single_center (restart (body (load a))) hC2 hS2
    have hl2' : (body (restart (body (load a)))).R_l
        = closedForm a.N.toNat (load a).theta (load a).D := hl2
    have hs2 : (body (restart (body (load a)))).R_s
        = closedForm a.N.toNat (load a).theta (load a).D := hl1'
    have he2 : (body (restart (body (load a)))).eps = a.eps := rfl
    show loop32 (fuel + 1) (restart (body (load a))) = _
    simp only [loop32, hl2', hs2, he2, convTest32_self _ _ he]
    rfl

/-- Witness for C18: the run `far`, whose closed form is `2`.  The initial
total is `3000000002`, so the first test is on a difference out of the range
of `int`; with the 32-bit test it passes and `2` is printed. -/
theorem single_center_closed_form_witness :
    loop32 2 far = Outcome.printed (closedForm 1 far.theta far.D) ∧
    closedForm 1 far.theta far.D = some 2 := by
  obtain ⟨hN, hC, he, ht, hD, hR, hs, hl⟩ := far_cells
  have hcf : closedForm 1 far.theta far.D = some 2 := by
    simp [closedForm, rowSum, ht, hD]
    norm_num
  have hct : convTest32 far.R_s (closedForm 1 far.theta far.D) 1 = true := by
    rw [hs, hcf, convTest32_of_none _ _ _ (convTest_far 1)]
    norm_num
  refine ⟨?_, hcf⟩
  exact single_center_closed_form ⟨1, 1, 1, [3000000002], [1], [1]⟩ 0 rfl (by norm_num)
    (noZeroNormaliser_one_one far 1 1 3000000002 hN hC ht hD hR (by norm_num) (by norm_num))
    (fun h => by
      rw [show (load ⟨1, 1, 1, [3000000002], [1], [1]⟩) = far from rfl] at h
      simp only [Int.toNat_one] at h
      rw [hct] at h
      cases h)

end Makva

namespace Makva

/-! ## C19: the rows of `A` -/

/-- C19: in an iteration in which the normaliser of every task in step 2 is a
non-zero number, the row `i` of `A` sums to the sum of the row `i` of `theta`;
and the row `i` of the recomputed `R` sums to the row sum of `D` plus the sum
over `k` of `D[i][k] * A[i][k]`. -/
theorem arrival_row_sum (v : Vars) (i : Nat) (hi : i < v.N.toNat)
    (hS : ∀ j, j < v.N.toNat → ∃ s : ℚ, s ≠ 0 ∧
      rowSum v.C.toNat (step1 v.N v.C.toNat v.theta v.D v.R) j = some s) :
    rowSum v.C.toNat (body v).A i = rowSum v.N.toNat v.theta i ∧
    rowSum v.C.toNat (body v).R i
      = rowSum v.C.toNat v.D i
        + (List.range v.C.toNat).foldl (fun s k => s + v.D i k * (body v).A i k) (some 0) := by
  have hAcell : ∀ k, k < v.C.toNat →
      (body v).A i k = arrivalSum v.N.toNat v.theta (body v).Q i k := by
    intro k hk
    simp only [body]
    rw [step3_apply, if_pos ⟨hi, hk⟩]
  have hRcell : ∀ k, k < v.C.toNat →
      (body v).R i k = v.D i k * (some 1 + (body v).A i k) := by
    intro k hk
    simp only [body]
    rw [step4_apply, if_pos ⟨hi, hk⟩]
  have hCpos : 0 < v.C.toNat := by
    obtain ⟨s, hne, hs⟩ := hS i hi
    rcases Nat.eq_zero_or_pos v.C.toNat with h0 | h0
    · rw [h0, rowSum_zero_centers] at hs
      exact absurd (Option.some.inj hs).symm hne
    · exact h0
  constructor
  · -- the rows of `Q` are finite and sum to one
    have hQ : ∀ j, j < v.N.toNat →
        (∀ k, k < v.C.toNat → (body v).Q j k = some (((body v).Q j k).getD 0)) ∧
        Finset.sum (Finset.range v.C.toNat) (fun k => ((body v).Q j k).getD 0) = 1 := by
      intro j hj
      obtain ⟨s, hne, hs⟩ := hS j hj
      obtain ⟨hc, hsum⟩ := step2_row v.N.toNat v.C.toNat _ v.Q j s hj hs hne
      have hc' : ∀ k, k < v.C.toNat → (body v).Q j k
          = some ((step1 v.N v.C.toNat v.theta v.D v.R j k).getD 0 / s) := hc
      refine ⟨fun k hk => by rw [hc' k hk]; rfl, ?_⟩
      rw [← hsum]
      exact Finset.sum_congr rfl (fun k hk => by rw [hc' k (Finset.mem_range.mp hk)]; rfl)
    rcases foldl_add_cases v.N.toNat (fun j => v.theta i j) with ⟨j0, hj0, hnone⟩ | hfin
    · -- an overlap that is no finite number
      have hr : rowSum v.N.toNat v.theta i = none :=
        foldl_add_none v.N.toNat (fun j => v.theta i j) _ j0 hj0 hnone
      have hA0 : (body v).A i 0 = none := by
        rw [hAcell 0 hCpos]
        exact foldl_add_none v.N.toNat (fun j => v.theta i j * (body v).Q j 0) _ j0 hj0
          (by simp only [hnone]; rfl)
      rw [hr]
      exact foldl_add_none v.C.toNat (fun k => (body v).A i k) _ 0 hCpos hA0
    · have hA : ∀ k, k < v.C.toNat → (body v).A i k
          = some (Finset.sum (Finset.range v.N.toNat)
              (fun j => (v.theta i j).getD 0 * ((body v).Q j k).getD 0)) := by
        intro k hk
        rw [hAcell k hk]
        exact arrivalSum_some v.N.toNat v.theta (body v).Q i k _ _ hfin
          (fun j hj => (hQ j hj).1 k hk)
      rw [rowSum_of_some v.C.toNat (body v).A i _ hA,
        rowSum_of_some v.N.toNat v.theta i _ hfin, Finset.sum_comm]
      congr 1
      refine Finset.sum_congr rfl (fun j hj => ?_)
      rw [← Finset.mul_sum, (hQ j (Finset.mem_range.mp hj)).2, mul_one]
  · rcases foldl_add_cases v.C.toNat (fun k => v.D i k) with ⟨k0, hk0, hnone⟩ | hDfin
    · have hl : rowSum v.C.toNat (body v).R i = none :=
        foldl_add_none v.C.toNat (fun k => (body v).R i k) _ k0 hk0
          (by simp only [hRcell k0 hk0, hnone]; rfl)
      have hr : rowSum v.C.toNat v.D i = none :=
        foldl_add_none v.C.toNat (fun k => v.D i k) _ k0 hk0 hnone
      rw [hl, hr]
      rfl
    · rcases foldl_add_cases v.C.toNat (fun k => (body v).A i k) with ⟨k0, hk0, hnone⟩ | hAfin
      · have hl : rowSum v.C.toNat (body v).R i = none :=
          foldl_add_none v.C.toNat (fun k => (body v).R i k) _ k0 hk0
            (by simp only [hRcell k0 hk0, hnone]; simp)
        have hr : (List.range v.C.toNat).foldl (fun s k => s + v.D i k * (body v).A i k) (some 0)
            = none :=
          foldl_add_none v.C.toNat (fun k => v.D i k * (body v).A i k) _ k0 hk0
            (by simp only [hnone]; simp)
        rw [hl, hr]
        simp
      · have hR : ∀ k, k < v.C.toNat → (body v).R i k
            = some ((v.D i k).getD 0 * (1 + ((body v).A i k).getD 0)) := by
          intro k hk
          rw [hRcell k hk]
          conv_lhs => rw [hDfin k hk, hAfin k hk]
          rfl
        have hDA := foldl_add_some v.C.toNat (fun k => v.D i k * (body v).A i k)
          (fun k => (v.D i k).getD 0 * ((body v).A i k).getD 0) 0
          (fun k hk => by
            show v.D i k * (body v).A i k = _
            conv_lhs => rw [hDfin k hk, hAfin k hk]
            rfl)
        rw [rowSum_of_some v.C.toNat (body v).R i _ hR,
          rowSum_of_some v.C.toNat v.D i _ hDfin, hDA, some_add_some, zero_add,
          ← Finset.sum_add_distrib]
        congr 1
        exact Finset.sum_congr rfl (fun k _ => by ring)

end Makva

namespace Makva

/-- Witness for C19: the degenerate run, task `0`. -/
theorem arrival_row_sum_witness :
    rowSum degenerate.C.toNat (body degenerate).A 0 = rowSum degenerate.N.toNat degenerate.theta 0 := by
  obtain ⟨hN, hC, -, ht, hD, hR, -, -⟩ := degenerate_cells
  obtain ⟨h1, -⟩ := body_one_one degenerate 1 1 2 hN hC ht hD hR (by norm_num) (by norm_num)
  have hN1 : degenerate.N.toNat = 1 := by rw [hN]; rfl
  have hC1 : degenerate.C.toNat = 1 := by rw [hC]; rfl
  refine (arrival_row_sum degenerate 0 (by rw [hN1]; decide) ?_).1
  intro j hj
  rw [hN1] at hj
  have hj0 : j = 0 := by omega
  subst hj0
  refine ⟨2 - 1 * 1, by norm_num, ?_⟩
  rw [hC1]
  simp only [hC1] at h1
  simp [rowSum, h1]

end Makva

namespace Makva

/-! ## C20: a non-positive tolerance -/

end Makva
